import Mathlib

/-!
Shallow embedding of the `rs-accountant` payment engine (`src/engine.rs`,
`src/main.rs`) and proofs about its specification.

Amounts are `rust_decimal::Decimal` values, modelled exactly as a signed
integer mantissa together with a decimal scale (number of fractional
digits).  Addition and subtraction align the operands to the larger scale
and operate on mantissas, which is what `rust_decimal` does for in-range
values; comparison and sign tests compare values.  `Dec.val` maps a
decimal to the rational number it denotes.

The two `HashMap`s of `PaymentEngine` are modelled as association lists
with unique keys; `findMap`/`updMap`/`insMap` mirror `get`, `get_mut`
mutation and `insert`.
-/

namespace RsAccountant

/-- A `rust_decimal::Decimal`: mantissa `m` and scale `s`, denoting `m / 10^s`. -/
structure Dec where
  m : Int
  s : Nat
deriving DecidableEq, Repr

namespace Dec

/-- `Decimal::ZERO`. -/
def zero : Dec := ⟨0, 0⟩

/-- The rational value denoted by a decimal. -/
def val (d : Dec) : Rat := (d.m : Rat) / (10 : Rat) ^ d.s

/-- Decimal addition: align to the larger scale, add mantissas. -/
def add (a b : Dec) : Dec :=
  ⟨a.m * 10 ^ (max a.s b.s - a.s) + b.m * 10 ^ (max a.s b.s - b.s), max a.s b.s⟩

/-- Decimal subtraction: align to the larger scale, subtract mantissas. -/
def sub (a b : Dec) : Dec :=
  ⟨a.m * 10 ^ (max a.s b.s - a.s) - b.m * 10 ^ (max a.s b.s - b.s), max a.s b.s⟩

/-- Value comparison `a < b` (cross-multiplied mantissas). -/
def blt (a b : Dec) : Prop := a.m * 10 ^ b.s < b.m * 10 ^ a.s

instance : DecidablePred fun p : Dec × Dec => blt p.1 p.2 := fun _ => by
  unfold blt; infer_instance

instance decBlt (a b : Dec) : Decidable (blt a b) := by
  unfold blt; infer_instance

/-- `Decimal::is_sign_negative` (the sign flag; negative zero does not arise
for mantissa-represented values here). -/
def isSignNegative (d : Dec) : Prop := d.m < 0

instance decNeg (d : Dec) : Decidable (isSignNegative d) := by
  unfold isSignNegative; infer_instance

theorem pow_split {s t : Nat} (h : s ≤ t) : (10 : Rat) ^ t = 10 ^ (t - s) * 10 ^ s := by
  rw [← pow_add, Nat.sub_add_cancel h]

theorem pow_align (a b : Dec) :
    (10 : Rat) ^ (max a.s b.s - a.s) * 10 ^ a.s = 10 ^ (max a.s b.s - b.s) * 10 ^ b.s := by
  rw [← pow_add, ← pow_add, Nat.sub_add_cancel (le_max_left a.s b.s),
    Nat.sub_add_cancel (le_max_right a.s b.s)]

theorem val_add (a b : Dec) : (a.add b).val = a.val + b.val := by
  unfold add val
  have hA := (pow_split (le_max_left a.s b.s)).symm
  have hB := (pow_split (le_max_right a.s b.s)).symm
  field_simp
  linear_combination ((a.m : Rat) * 10 ^ b.s) * hA + ((b.m : Rat) * 10 ^ a.s) * hB

theorem val_sub (a b : Dec) : (a.sub b).val = a.val - b.val := by
  unfold sub val
  have hA := (pow_split (le_max_left a.s b.s)).symm
  have hB := (pow_split (le_max_right a.s b.s)).symm
  field_simp
  linear_combination ((a.m : Rat) * 10 ^ b.s) * hA - ((b.m : Rat) * 10 ^ a.s) * hB

theorem blt_iff_val (a b : Dec) : blt a b ↔ a.val < b.val := by
  unfold blt val
  rw [div_lt_div_iff₀ (by positivity) (by positivity)]
  constructor
  · intro h
    exact_mod_cast h
  · intro h
    exact_mod_cast h

theorem not_neg_iff (d : Dec) : ¬ d.isSignNegative ↔ 0 ≤ d.val := by
  unfold isSignNegative val
  have h1 : (0:Rat) < 10 ^ d.s := by positivity
  constructor
  · intro h
    have hm : (0:Int) ≤ d.m := by omega
    positivity
  · intro h hneg
    have : (d.m : Rat) < 0 := by exact_mod_cast hneg
    have : (d.m : Rat) / 10 ^ d.s < 0 := div_neg_of_neg_of_pos this h1
    exact absurd h (not_le.mpr this)

theorem zero_val : zero.val = 0 := by
  unfold zero val
  norm_num

end Dec

/-- Client identifier (`u16` in the source; the operations never overflow it). -/
abbrev ClientId := Nat
/-- Transaction identifier (`u32` in the source). -/
abbrev TransactionId := Nat

/-- The dispute status of a stored transaction. -/
inductive DisputeStatus
  | NotDisputed
  | Disputed
  | Resolved
  | ChargedBack
deriving DecidableEq, Repr

/-- The five transaction types. -/
inductive TransactionType
  | Deposit
  | Withdrawal
  | Dispute
  | Resolve
  | Chargeback
deriving DecidableEq, Repr

/-- An input record (`InputTransaction` in the source). -/
structure InputTransaction where
  transaction_type : TransactionType
  client_id : ClientId
  tx_id : TransactionId
  amount : Option Dec
deriving DecidableEq, Repr

/-- A client account. -/
structure Account where
  id : ClientId
  available : Dec
  held : Dec
  locked : Bool
deriving DecidableEq, Repr

namespace Account

/-- `Account::new`. -/
def new (id : ClientId) : Account := ⟨id, Dec.zero, Dec.zero, false⟩

/-- `Account::total`: available + held. -/
def total (a : Account) : Dec := a.available.add a.held

end Account

/-- A retained deposit/withdrawal (`StoredTransaction`). -/
structure StoredTransaction where
  client_id : ClientId
  amount : Dec
  dispute_status : DisputeStatus
deriving DecidableEq, Repr

/-- Association-list lookup, mirroring `HashMap::get`. -/
def findMap {α : Type} (k : Nat) : List (Nat × α) → Option α
  | [] => none
  | p :: rest => if p.1 = k then some p.2 else findMap k rest

/-- In-place mutation of the entry at `k` (if present), mirroring `get_mut`. -/
def updMap {α : Type} (k : Nat) (f : α → α) : List (Nat × α) → List (Nat × α)
  | [] => []
  | p :: rest => if p.1 = k then (p.1, f p.2) :: rest else p :: updMap k f rest

/-- `HashMap::insert`: replace the entry at `k` if present, otherwise add it. -/
def insMap {α : Type} (k : Nat) (v : α) (l : List (Nat × α)) : List (Nat × α) :=
  if (findMap k l).isSome then updMap k (fun _ => v) l else (k, v) :: l

/-- `entry(k).or_insert_with(|| Account::new(k))`: the looked-up (or freshly
created) account together with the map afterwards. -/
def getOrNew (c : ClientId) (m : List (Nat × Account)) :
    Account × List (Nat × Account) :=
  match findMap c m with
  | some a => (a, m)
  | none => (Account.new c, (c, Account.new c) :: m)

/-- The engine state: the two `HashMap`s of `PaymentEngine`. -/
structure PaymentEngine where
  accounts : List (Nat × Account)
  transactions : List (Nat × StoredTransaction)
deriving DecidableEq, Repr

/-- `PaymentEngine::new()`. -/
def engine0 : PaymentEngine := ⟨[], []⟩

/-- `PaymentEngine::handle_deposit`. -/
def handle_deposit (e : PaymentEngine) (tx : InputTransaction) : PaymentEngine :=
  match tx.amount with
  | none => e
  | some amount =>
    if amount.isSignNegative then e
    else
      let p := getOrNew tx.client_id e.accounts
      if p.1.locked then { e with accounts := p.2 }
      else
        { accounts := updMap tx.client_id
            (fun a => { a with available := a.available.add amount }) p.2,
          transactions := insMap tx.tx_id
            ⟨tx.client_id, amount, DisputeStatus.NotDisputed⟩ e.transactions }

/-- `PaymentEngine::handle_withdrawal`. -/
def handle_withdrawal (e : PaymentEngine) (tx : InputTransaction) : PaymentEngine :=
  match tx.amount with
  | none => e
  | some amount =>
    if amount.isSignNegative then e
    else
      let p := getOrNew tx.client_id e.accounts
      if p.1.locked ∨ p.1.available.blt amount then { e with accounts := p.2 }
      else
        { accounts := updMap tx.client_id
            (fun a => { a with available := a.available.sub amount }) p.2,
          transactions := insMap tx.tx_id
            ⟨tx.client_id, amount, DisputeStatus.NotDisputed⟩ e.transactions }

/-- `PaymentEngine::handle_dispute`. -/
def handle_dispute (e : PaymentEngine) (tx : InputTransaction) : PaymentEngine :=
  match findMap tx.tx_id e.transactions with
  | none => e
  | some dtx =>
    if dtx.client_id ≠ tx.client_id then e
    else
      match findMap tx.client_id e.accounts with
      | none => e
      | some account =>
        if account.locked ∨ dtx.dispute_status = DisputeStatus.Disputed
            ∨ dtx.dispute_status = DisputeStatus.ChargedBack then e
        else
          { accounts := updMap tx.client_id
              (fun a => { a with available := a.available.sub dtx.amount,
                                 held := a.held.add dtx.amount }) e.accounts,
            transactions := updMap tx.tx_id
              (fun t => { t with dispute_status := DisputeStatus.Disputed })
              e.transactions }

/-- `PaymentEngine::handle_resolve`. -/
def handle_resolve (e : PaymentEngine) (tx : InputTransaction) : PaymentEngine :=
  match findMap tx.tx_id e.transactions with
  | none => e
  | some dtx =>
    if dtx.client_id ≠ tx.client_id ∨ dtx.dispute_status ≠ DisputeStatus.Disputed then e
    else
      match findMap tx.client_id e.accounts with
      | none => e
      | some account =>
        if account.locked then e
        else
          { accounts := updMap tx.client_id
              (fun a => { a with available := a.available.add dtx.amount,
                                 held := a.held.sub dtx.amount }) e.accounts,
            transactions := updMap tx.tx_id
              (fun t => { t with dispute_status := DisputeStatus.Resolved })
              e.transactions }

/-- `PaymentEngine::handle_chargeback`. -/
def handle_chargeback (e : PaymentEngine) (tx : InputTransaction) : PaymentEngine :=
  match findMap tx.tx_id e.transactions with
  | none => e
  | some dtx =>
    if dtx.client_id ≠ tx.client_id ∨ dtx.dispute_status ≠ DisputeStatus.Disputed then e
    else
      match findMap tx.client_id e.accounts with
      | none => e
      | some account =>
        if account.locked then e
        else
          { accounts := updMap tx.client_id
              (fun a => { a with held := a.held.sub dtx.amount, locked := true })
              e.accounts,
            transactions := updMap tx.tx_id
              (fun t => { t with dispute_status := DisputeStatus.ChargedBack })
              e.transactions }

/-- Dispatch on the record's transaction type (the `match` in
`process_transactions` and in the worker loop of `main.rs`). -/
def processOne (e : PaymentEngine) (tx : InputTransaction) : PaymentEngine :=
  match tx.transaction_type with
  | TransactionType.Deposit => handle_deposit e tx
  | TransactionType.Withdrawal => handle_withdrawal e tx
  | TransactionType.Dispute => handle_dispute e tx
  | TransactionType.Resolve => handle_resolve e tx
  | TransactionType.Chargeback => handle_chargeback e tx

/-- Process a whole record sequence in order. -/
def processAll (e : PaymentEngine) (l : List InputTransaction) : PaymentEngine :=
  l.foldl processOne e

/-! ### Association-list map lemmas -/

theorem findMap_updMap_self {α : Type} (k : Nat) (f : α → α) (l : List (Nat × α)) :
    findMap k (updMap k f l) = (findMap k l).map f := by
  induction l with
  | nil => rfl
  | cons p rest ih =>
    by_cases h : p.1 = k
    · simp [updMap, findMap, h]
    · simp [updMap, findMap, h, ih]

theorem findMap_updMap_ne {α : Type} {k k' : Nat} (h : k' ≠ k) (f : α → α)
    (l : List (Nat × α)) : findMap k' (updMap k f l) = findMap k' l := by
  induction l with
  | nil => rfl
  | cons p rest ih =>
    by_cases hp : p.1 = k
    · subst hp
      simp [updMap, findMap, Ne.symm h]
    · by_cases hp' : p.1 = k'
      · simp [updMap, findMap, hp, hp', h]
      · simp [updMap, findMap, hp, hp', ih]

theorem findMap_insMap_self {α : Type} (k : Nat) (v : α) (l : List (Nat × α)) :
    findMap k (insMap k v l) = some v := by
  unfold insMap
  by_cases h : (findMap k l).isSome
  · simp only [h, if_true, findMap_updMap_self]
    cases hfind : findMap k l with
    | none => rw [hfind] at h; simp at h
    | some a => simp
  · simp [h, findMap]

theorem findMap_insMap_ne {α : Type} {k k' : Nat} (h : k' ≠ k) (v : α)
    (l : List (Nat × α)) : findMap k' (insMap k v l) = findMap k' l := by
  unfold insMap
  by_cases hs : (findMap k l).isSome
  · simp [hs, findMap_updMap_ne h]
  · simp [hs, findMap, Ne.symm h]

theorem keys_updMap {α : Type} (k : Nat) (f : α → α) (l : List (Nat × α)) :
    (updMap k f l).map Prod.fst = l.map Prod.fst := by
  induction l with
  | nil => rfl
  | cons p rest ih =>
    by_cases h : p.1 = k <;> simp [updMap, h, ih]

/-- Characterization of `getOrNew` when the account exists. -/
theorem getOrNew_found {c : Nat} {m : List (Nat × Account)} {a : Account}
    (h : findMap c m = some a) : getOrNew c m = (a, m) := by
  unfold getOrNew
  rw [h]

/-- Characterization of `getOrNew` when the account is missing. -/
theorem getOrNew_missing {c : Nat} {m : List (Nat × Account)}
    (h : findMap c m = none) :
    getOrNew c m = (Account.new c, (c, Account.new c) :: m) := by
  unfold getOrNew
  rw [h]

/-! ### Precondition predicates (the operations' contracts) -/

/-- The dispute preconditions: the referenced transaction exists, its stored
client matches the record's, the client's account exists and is unlocked, and
the status is `NotDisputed` or `Resolved`. -/
def disputeOk (e : PaymentEngine) (r : InputTransaction) : Prop :=
  ∃ st acct, findMap r.tx_id e.transactions = some st ∧
    st.client_id = r.client_id ∧
    findMap r.client_id e.accounts = some acct ∧
    acct.locked = false ∧
    (st.dispute_status = DisputeStatus.NotDisputed ∨
      st.dispute_status = DisputeStatus.Resolved)

/-- The dispute status of the stored transaction `t`, if any. -/
def statusOf (e : PaymentEngine) (t : TransactionId) : Option DisputeStatus :=
  (findMap t e.transactions).map (fun st => st.dispute_status)

/-- When all dispute preconditions hold, `handle_dispute` performs exactly the
documented mutation. -/
theorem handle_dispute_applies (e : PaymentEngine) (r : InputTransaction)
    (st : StoredTransaction) (acct : Account)
    (htx : findMap r.tx_id e.transactions = some st)
    (hcl : st.client_id = r.client_id)
    (hacct : findMap r.client_id e.accounts = some acct)
    (hlock : acct.locked = false)
    (hstatus : st.dispute_status = DisputeStatus.NotDisputed ∨
      st.dispute_status = DisputeStatus.Resolved) :
    handle_dispute e r =
      { accounts := updMap r.client_id
          (fun a => { a with available := a.available.sub st.amount,
                             held := a.held.add st.amount }) e.accounts,
        transactions := updMap r.tx_id
          (fun t => { t with dispute_status := DisputeStatus.Disputed })
          e.transactions } := by
  unfold handle_dispute
  rw [htx, hacct]
  rcases hstatus with h | h <;> simp [hcl, hlock, h]

/-- When some dispute precondition fails, `handle_dispute` is the identity. -/
theorem handle_dispute_rejects (e : PaymentEngine) (r : InputTransaction)
    (hno : ¬ disputeOk e r) : handle_dispute e r = e := by
  unfold handle_dispute
  cases htx : findMap r.tx_id e.transactions with
  | none => rfl
  | some st =>
    by_cases hcl : st.client_id ≠ r.client_id
    · simp [hcl]
    · push_neg at hcl
      cases hacct : findMap r.client_id e.accounts with
      | none => simp [hcl]
      | some acct =>
        by_cases hcond : (acct.locked : Prop) ∨
            st.dispute_status = DisputeStatus.Disputed ∨
            st.dispute_status = DisputeStatus.ChargedBack
        · simp [hcl, hcond]
        · exfalso
          apply hno
          push_neg at hcond
          refine ⟨st, acct, htx, hcl, hacct, by simpa using hcond.1, ?_⟩
          cases h : st.dispute_status
          · exact Or.inl rfl
          · exact absurd h hcond.2.1
          · exact Or.inr rfl
          · exact absurd h hcond.2.2

/-- Shorthand for a deposit record. -/
def depTx (c t : Nat) (m : Int) (s : Nat) : InputTransaction :=
  ⟨TransactionType.Deposit, c, t, some ⟨m, s⟩⟩

/-- Shorthand for a withdrawal record. -/
def wdTx (c t : Nat) (m : Int) (s : Nat) : InputTransaction :=
  ⟨TransactionType.Withdrawal, c, t, some ⟨m, s⟩⟩

/-- Shorthand for a dispute record. -/
def dsTx (c t : Nat) : InputTransaction := ⟨TransactionType.Dispute, c, t, none⟩

/-- Shorthand for a resolve record. -/
def rsTx (c t : Nat) : InputTransaction := ⟨TransactionType.Resolve, c, t, none⟩

/-- Shorthand for a chargeback record. -/
def cbTx (c t : Nat) : InputTransaction := ⟨TransactionType.Chargeback, c, t, none⟩

/-- C4: if the stored transaction exists with matching client, the account
exists and is unlocked, and the status is NotDisputed or Resolved, then
dispute sets `available := available - amount`, `held := held + amount`
(the stored magnitude) and the status to Disputed, leaving all other accounts
and transactions untouched and preserving `available + held`; under any other
condition dispute changes nothing. -/
theorem claim_C4_dispute (e : PaymentEngine) (r : InputTransaction)
    (st : StoredTransaction) (acct : Account)
    (htx : findMap r.tx_id e.transactions = some st)
    (hcl : st.client_id = r.client_id)
    (hacct : findMap r.client_id e.accounts = some acct)
    (hlock : acct.locked = false)
    (hstatus : st.dispute_status = DisputeStatus.NotDisputed ∨
      st.dispute_status = DisputeStatus.Resolved) :
    (findMap r.client_id (handle_dispute e r).accounts =
      some { acct with available := acct.available.sub st.amount,
                       held := acct.held.add st.amount }) ∧
    statusOf (handle_dispute e r) r.tx_id = some DisputeStatus.Disputed ∧
    ((acct.available.sub st.amount).val + (acct.held.add st.amount).val =
      acct.available.val + acct.held.val) ∧
    (∀ c, c ≠ r.client_id →
      findMap c (handle_dispute e r).accounts = findMap c e.accounts) ∧
    (∀ t, t ≠ r.tx_id →
      findMap t (handle_dispute e r).transactions = findMap t e.transactions) ∧
    (∀ e' r', ¬ disputeOk e' r' → handle_dispute e' r' = e') := by
  rw [handle_dispute_applies e r st acct htx hcl hacct hlock hstatus]
  refine ⟨?_, ?_, ?_, ?_, ?_, fun e' r' h => handle_dispute_rejects e' r' h⟩
  · rw [findMap_updMap_self, hacct]
    rfl
  · unfold statusOf
    rw [findMap_updMap_self, htx]
    rfl
  · rw [Dec.val_sub, Dec.val_add]
    ring
  · intro c hc
    exact findMap_updMap_ne hc _ _
  · intro t ht
    exact findMap_updMap_ne ht _ _

/-- Witness for C4: the spec's scenario 5 — deposit 100.0, withdraw 80.0,
dispute the deposit; available becomes -80.0 (negative), held 100.0, status
Disputed. -/
theorem claim_C4_dispute_witness :
    findMap 1 (handle_dispute
        (processAll engine0 [depTx 1 1 1000 1, wdTx 1 2 800 1]) (dsTx 1 1)).accounts =
      some { id := 1, available := Dec.mk (-800) 1, held := Dec.mk 1000 1,
             locked := false } ∧
    statusOf (handle_dispute
        (processAll engine0 [depTx 1 1 1000 1, wdTx 1 2 800 1]) (dsTx 1 1)) 1 =
      some DisputeStatus.Disputed ∧
    (Dec.mk (-800) 1).val < 0 ∧
    (Dec.mk (-800) 1).val + (Dec.mk 1000 1).val =
      (Dec.mk 200 1).val + (Dec.mk 0 0).val := by
  have h := claim_C4_dispute
    (processAll engine0 [depTx 1 1 1000 1, wdTx 1 2 800 1]) (dsTx 1 1)
    ⟨1, Dec.mk 1000 1, DisputeStatus.NotDisputed⟩
    ⟨1, Dec.mk 200 1, Dec.mk 0 0, false⟩
    (by decide) (by decide) (by decide) (by decide) (Or.inl rfl)
  refine ⟨?_, h.2.1, ?_, ?_⟩
  · have h1 := h.1
    simpa using h1
  · norm_num [Dec.val]
  · have h3 := h.2.2.1
    simpa using h3

/-! ### Withdrawal (C5) -/

theorem findMap_getOrNew_self (c : ClientId) (m : List (Nat × Account)) :
    findMap c (getOrNew c m).2 = some (getOrNew c m).1 := by
  unfold getOrNew
  cases h : findMap c m with
  | none => simp [findMap]
  | some a => simpa using h

theorem findMap_getOrNew_ne {c c' : ClientId} (h : c' ≠ c)
    (m : List (Nat × Account)) : findMap c' (getOrNew c m).2 = findMap c' m := by
  unfold getOrNew
  cases hf : findMap c m with
  | none => simp [findMap, Ne.symm h]
  | some a => simp

/-- The available/held pair of a client, `(0, 0)` when the account does not
exist yet (accounts are created lazily with zero balances). -/
def balancesOrZero (e : PaymentEngine) (c : ClientId) : Dec × Dec :=
  match findMap c e.accounts with
  | some a => (a.available, a.held)
  | none => (Dec.zero, Dec.zero)

/-- Unfolding characterization of `handle_withdrawal` for a present amount. -/
theorem handle_withdrawal_eq (e : PaymentEngine) (r : InputTransaction)
    (amount : Dec) (hamt : r.amount = some amount) :
    handle_withdrawal e r =
      if amount.isSignNegative then e
      else if (getOrNew r.client_id e.accounts).1.locked ∨
          (getOrNew r.client_id e.accounts).1.available.blt amount then
        { e with accounts := (getOrNew r.client_id e.accounts).2 }
      else
        { accounts := updMap r.client_id
            (fun a => { a with available := a.available.sub amount })
            (getOrNew r.client_id e.accounts).2,
          transactions := insMap r.tx_id
            ⟨r.client_id, amount, DisputeStatus.NotDisputed⟩ e.transactions } := by
  unfold handle_withdrawal
  rw [hamt]

/-- Unfolding characterization of `handle_deposit` for a present amount. -/
theorem handle_deposit_eq (e : PaymentEngine) (r : InputTransaction)
    (amount : Dec) (hamt : r.amount = some amount) :
    handle_deposit e r =
      if amount.isSignNegative then e
      else if (getOrNew r.client_id e.accounts).1.locked then
        { e with accounts := (getOrNew r.client_id e.accounts).2 }
      else
        { accounts := updMap r.client_id
            (fun a => { a with available := a.available.add amount })
            (getOrNew r.client_id e.accounts).2,
          transactions := insMap r.tx_id
            ⟨r.client_id, amount, DisputeStatus.NotDisputed⟩ e.transactions } := by
  unfold handle_deposit
  rw [hamt]

/-- Replacing the accounts map by the `entry()`-touched one does not change
any client's balances (a freshly created account has zero balances). -/
theorem balancesOrZero_getOrNew (e : PaymentEngine) (c : ClientId) :
    balancesOrZero { e with accounts := (getOrNew c e.accounts).2 } c =
      balancesOrZero e c := by
  unfold balancesOrZero
  cases h : findMap c e.accounts with
  | none =>
    rw [getOrNew_missing h]
    simp [findMap, h, Account.new]
  | some a =>
    rw [getOrNew_found h]
    simp [h]

/-- C5: a withdrawal with a present, non-negative amount against an unlocked
account with `available >= amount` sets `available := available - amount` and
stores the transaction with the withdrawn magnitude and status NotDisputed;
on any precondition failure the account's balances are unchanged. -/
theorem claim_C5_withdrawal (e : PaymentEngine) (r : InputTransaction)
    (amount : Dec) (hamt : r.amount = some amount) :
    (¬ amount.isSignNegative →
      (getOrNew r.client_id e.accounts).1.locked = false →
      ¬ (getOrNew r.client_id e.accounts).1.available.blt amount →
      findMap r.client_id (handle_withdrawal e r).accounts =
        some { (getOrNew r.client_id e.accounts).1 with
          available := (getOrNew r.client_id e.accounts).1.available.sub amount } ∧
      findMap r.tx_id (handle_withdrawal e r).transactions =
        some ⟨r.client_id, amount, DisputeStatus.NotDisputed⟩) ∧
    ((amount.isSignNegative ∨ (getOrNew r.client_id e.accounts).1.locked = true ∨
        (getOrNew r.client_id e.accounts).1.available.blt amount) →
      balancesOrZero (handle_withdrawal e r) r.client_id =
        balancesOrZero e r.client_id) := by
  rw [handle_withdrawal_eq e r amount hamt]
  constructor
  · intro hsign hlock hble
    rw [if_neg hsign, if_neg (by simp [hlock, hble])]
    constructor
    · rw [findMap_updMap_self, findMap_getOrNew_self]
      rfl
    · rw [findMap_insMap_self]
  · intro hfail
    by_cases hsign : amount.isSignNegative
    · rw [if_pos hsign]
    · rw [if_neg hsign]
      rcases hfail with h | h | h
      · exact absurd h hsign
      · rw [if_pos (Or.inl (by simp [h]))]
        exact balancesOrZero_getOrNew e r.client_id
      · rw [if_pos (Or.inr h)]
        exact balancesOrZero_getOrNew e r.client_id

/-- Witness for C5: the spec's scenario 2 — after a 100.0 deposit, a 150.0
withdrawal is rejected and balances stay (100.0, 0); a 50.0 withdrawal
succeeds, sets available to 50.0 and stores the transaction. -/
theorem claim_C5_withdrawal_witness :
    balancesOrZero
        (handle_withdrawal (processAll engine0 [depTx 1 1 1000 1]) (wdTx 1 2 1500 1)) 1 =
      (Dec.mk 1000 1, Dec.mk 0 0) ∧
    findMap 1
        (handle_withdrawal (processAll engine0 [depTx 1 1 1000 1]) (wdTx 1 2 500 1)).accounts =
      some { id := 1, available := Dec.mk 500 1, held := Dec.mk 0 0, locked := false } ∧
    findMap 2
        (handle_withdrawal (processAll engine0 [depTx 1 1 1000 1]) (wdTx 1 2 500 1)).transactions =
      some ⟨1, Dec.mk 500 1, DisputeStatus.NotDisputed⟩ := by
  have h1 := (claim_C5_withdrawal (processAll engine0 [depTx 1 1 1000 1])
    (wdTx 1 2 1500 1) (Dec.mk 1500 1) rfl).2 (Or.inr (Or.inr (by decide)))
  have h2 := (claim_C5_withdrawal (processAll engine0 [depTx 1 1 1000 1])
    (wdTx 1 2 500 1) (Dec.mk 500 1) rfl).1 (by decide) (by decide) (by decide)
  exact ⟨h1, h2.1, h2.2⟩

/-! ### Chargeback (C6) -/

/-- The chargeback (and resolve) preconditions: the referenced transaction
exists, its stored client matches, its status is exactly Disputed, and the
client's account exists and is unlocked. -/
def chargebackOk (e : PaymentEngine) (r : InputTransaction) : Prop :=
  ∃ st acct, findMap r.tx_id e.transactions = some st ∧
    st.client_id = r.client_id ∧
    st.dispute_status = DisputeStatus.Disputed ∧
    findMap r.client_id e.accounts = some acct ∧
    acct.locked = false

/-- When all chargeback preconditions hold, `handle_chargeback` performs
exactly the documented mutation. -/
theorem handle_chargeback_applies (e : PaymentEngine) (r : InputTransaction)
    (st : StoredTransaction) (acct : Account)
    (htx : findMap r.tx_id e.transactions = some st)
    (hcl : st.client_id = r.client_id)
    (hstat : st.dispute_status = DisputeStatus.Disputed)
    (hacct : findMap r.client_id e.accounts = some acct)
    (hlock : acct.locked = false) :
    handle_chargeback e r =
      { accounts := updMap r.client_id
          (fun a => { a with held := a.held.sub st.amount, locked := true })
          e.accounts,
        transactions := updMap r.tx_id
          (fun t => { t with dispute_status := DisputeStatus.ChargedBack })
          e.transactions } := by
  unfold handle_chargeback
  rw [htx, hacct]
  simp [hcl, hstat, hlock]

/-- When some chargeback precondition fails, `handle_chargeback` is the
identity. -/
theorem handle_chargeback_rejects (e : PaymentEngine) (r : InputTransaction)
    (hno : ¬ chargebackOk e r) : handle_chargeback e r = e := by
  unfold handle_chargeback
  cases htx : findMap r.tx_id e.transactions with
  | none => rfl
  | some st =>
    by_cases hcond : st.client_id ≠ r.client_id ∨
        st.dispute_status ≠ DisputeStatus.Disputed
    · simp [hcond]
    · push_neg at hcond
      cases hacct : findMap r.client_id e.accounts with
      | none => simp [hcond.1, hcond.2]
      | some acct =>
        by_cases hlock : (acct.locked : Prop)
        · simp [hcond.1, hcond.2, hlock]
        · exact absurd ⟨st, acct, htx, hcond.1, hcond.2, hacct, by simpa using hlock⟩ hno

/-- C6: if the stored transaction exists with matching client, status exactly
Disputed, and the account exists and is unlocked, then chargeback sets
`held := held - amount`, locks the account, and sets the status to
ChargedBack; under any other condition (in particular any status other than
Disputed, including ChargedBack) it changes nothing. -/
theorem claim_C6_chargeback (e : PaymentEngine) (r : InputTransaction)
    (st : StoredTransaction) (acct : Account)
    (htx : findMap r.tx_id e.transactions = some st)
    (hcl : st.client_id = r.client_id)
    (hstat : st.dispute_status = DisputeStatus.Disputed)
    (hacct : findMap r.client_id e.accounts = some acct)
    (hlock : acct.locked = false) :
    (findMap r.client_id (handle_chargeback e r).accounts =
      some { acct with held := acct.held.sub st.amount, locked := true }) ∧
    statusOf (handle_chargeback e r) r.tx_id = some DisputeStatus.ChargedBack ∧
    (∀ e' r', ¬ chargebackOk e' r' → handle_chargeback e' r' = e') := by
  rw [handle_chargeback_applies e r st acct htx hcl hstat hacct hlock]
  refine ⟨?_, ?_, fun e' r' h => handle_chargeback_rejects e' r' h⟩
  · rw [findMap_updMap_self, hacct]
    rfl
  · unfold statusOf
    rw [findMap_updMap_self, htx]
    rfl

/-- Witness for C6: the spec's scenario 4 — deposit 100.0, dispute, then
chargeback: available 0, held 0, locked, status ChargedBack; a further
chargeback of the now ChargedBack transaction changes nothing. -/
theorem claim_C6_chargeback_witness :
    findMap 1 (handle_chargeback
        (processAll engine0 [depTx 1 1 1000 1, dsTx 1 1]) (cbTx 1 1)).accounts =
      some { id := 1, available := Dec.mk 0 1, held := Dec.mk 0 1, locked := true } ∧
    statusOf (handle_chargeback
        (processAll engine0 [depTx 1 1 1000 1, dsTx 1 1]) (cbTx 1 1)) 1 =
      some DisputeStatus.ChargedBack ∧
    handle_chargeback
        (processAll engine0 [depTx 1 1 1000 1, dsTx 1 1, cbTx 1 1]) (cbTx 1 1) =
      processAll engine0 [depTx 1 1 1000 1, dsTx 1 1, cbTx 1 1] := by
  have h := claim_C6_chargeback (processAll engine0 [depTx 1 1 1000 1, dsTx 1 1])
    (cbTx 1 1) ⟨1, Dec.mk 1000 1, DisputeStatus.Disputed⟩
    ⟨1, Dec.mk 0 1, Dec.mk 1000 1, false⟩
    (by decide) (by decide) (by decide) (by decide) (by decide)
  refine ⟨h.1, h.2.1, h.2.2 _ _ ?_⟩
  rintro ⟨st, acct, htx, hcl, hstat, hacct, hlock⟩
  have hst := Option.some.inj htx
  rw [← hst] at hstat
  simp at hstat

/-! ### Resolve and the dispute/resolve round trip (C8) -/

/-- When all resolve preconditions hold, `handle_resolve` performs exactly
the documented mutation. -/
theorem handle_resolve_applies (e : PaymentEngine) (r : InputTransaction)
    (st : StoredTransaction) (acct : Account)
    (htx : findMap r.tx_id e.transactions = some st)
    (hcl : st.client_id = r.client_id)
    (hstat : st.dispute_status = DisputeStatus.Disputed)
    (hacct : findMap r.client_id e.accounts = some acct)
    (hlock : acct.locked = false) :
    handle_resolve e r =
      { accounts := updMap r.client_id
          (fun a => { a with available := a.available.add st.amount,
                             held := a.held.sub st.amount }) e.accounts,
        transactions := updMap r.tx_id
          (fun t => { t with dispute_status := DisputeStatus.Resolved })
          e.transactions } := by
  unfold handle_resolve
  rw [htx, hacct]
  simp [hcl, hstat, hlock]

/-- C8: when a transaction is eligible for dispute, disputing and then
resolving it returns the account's available and held to exactly their
values before the dispute, leaves the status Resolved, and a further dispute
of the same transaction is again permitted (its status becomes Disputed). -/
theorem claim_C8_dispute_resolve_roundtrip (e : PaymentEngine) (c t : Nat)
    (st : StoredTransaction) (acct : Account)
    (htx : findMap t e.transactions = some st)
    (hcl : st.client_id = c)
    (hacct : findMap c e.accounts = some acct)
    (hlock : acct.locked = false)
    (hstatus : st.dispute_status = DisputeStatus.NotDisputed ∨
      st.dispute_status = DisputeStatus.Resolved) :
    ((findMap c (handle_resolve (handle_dispute e (dsTx c t)) (rsTx c t)).accounts).map
        (fun a => (a.available.val, a.held.val)) =
      some (acct.available.val, acct.held.val)) ∧
    statusOf (handle_resolve (handle_dispute e (dsTx c t)) (rsTx c t)) t =
      some DisputeStatus.Resolved ∧
    statusOf (handle_dispute
        (handle_resolve (handle_dispute e (dsTx c t)) (rsTx c t)) (dsTx c t)) t =
      some DisputeStatus.Disputed := by
  have h1 := handle_dispute_applies e (dsTx c t) st acct htx hcl hacct hlock hstatus
  have htx1 : findMap t (handle_dispute e (dsTx c t)).transactions =
      some { st with dispute_status := DisputeStatus.Disputed } := by
    rw [h1]
    dsimp only [dsTx]
    rw [findMap_updMap_self, htx]
    rfl
  have hacct1 : findMap c (handle_dispute e (dsTx c t)).accounts =
      some { acct with available := acct.available.sub st.amount,
                       held := acct.held.add st.amount } := by
    rw [h1]
    dsimp only [dsTx]
    rw [findMap_updMap_self, hacct]
    rfl
  have h2 := handle_resolve_applies (handle_dispute e (dsTx c t)) (rsTx c t)
    { st with dispute_status := DisputeStatus.Disputed }
    { acct with available := acct.available.sub st.amount,
                held := acct.held.add st.amount }
    htx1 hcl rfl hacct1 (by simpa using hlock)
  have htx2 : findMap t
      (handle_resolve (handle_dispute e (dsTx c t)) (rsTx c t)).transactions =
      some { st with dispute_status := DisputeStatus.Resolved } := by
    rw [h2]
    dsimp only [rsTx]
    rw [findMap_updMap_self, htx1]
    rfl
  have hacct2 : findMap c
      (handle_resolve (handle_dispute e (dsTx c t)) (rsTx c t)).accounts =
      some { acct with available := (acct.available.sub st.amount).add st.amount,
                       held := (acct.held.add st.amount).sub st.amount } := by
    rw [h2]
    dsimp only [rsTx]
    rw [findMap_updMap_self, hacct1]
    rfl
  refine ⟨?_, ?_, ?_⟩
  · have hv1 : ((acct.available.sub st.amount).add st.amount).val =
        acct.available.val := by
      rw [Dec.val_add, Dec.val_sub]
      ring
    have hv2 : ((acct.held.add st.amount).sub st.amount).val = acct.held.val := by
      rw [Dec.val_sub, Dec.val_add]
      ring
    rw [hacct2]
    simp [hv1, hv2]
  · unfold statusOf
    rw [htx2]
    rfl
  · have h3 := handle_dispute_applies
      (handle_resolve (handle_dispute e (dsTx c t)) (rsTx c t)) (dsTx c t)
      { st with dispute_status := DisputeStatus.Resolved }
      { acct with available := (acct.available.sub st.amount).add st.amount,
                  held := (acct.held.add st.amount).sub st.amount }
      htx2 hcl hacct2 (by simpa using hlock) (Or.inr rfl)
    unfold statusOf
    rw [h3]
    dsimp only
    rw [show (dsTx c t).tx_id = t from rfl, findMap_updMap_self, htx2]
    rfl

/-- Witness for C8: the spec's scenario 3 — deposit 100.0, dispute, resolve:
available back to 100, held back to 0, status Resolved; disputing again
gives status Disputed. -/
theorem claim_C8_dispute_resolve_roundtrip_witness :
    ((findMap 1 (handle_resolve
        (handle_dispute (processAll engine0 [depTx 1 1 1000 1]) (dsTx 1 1))
        (rsTx 1 1)).accounts).map (fun a => (a.available.val, a.held.val)) =
      some ((100 : Rat), (0 : Rat))) ∧
    statusOf (handle_resolve
        (handle_dispute (processAll engine0 [depTx 1 1 1000 1]) (dsTx 1 1))
        (rsTx 1 1)) 1 = some DisputeStatus.Resolved ∧
    statusOf (handle_dispute (handle_resolve
        (handle_dispute (processAll engine0 [depTx 1 1 1000 1]) (dsTx 1 1))
        (rsTx 1 1)) (dsTx 1 1)) 1 = some DisputeStatus.Disputed := by
  have h := claim_C8_dispute_resolve_roundtrip (processAll engine0 [depTx 1 1 1000 1])
    1 1 ⟨1, Dec.mk 1000 1, DisputeStatus.NotDisputed⟩
    ⟨1, Dec.mk 1000 1, Dec.mk 0 0, false⟩
    (by decide) (by decide) (by decide) (by decide) (Or.inl rfl)
  refine ⟨?_, h.2.1, h.2.2⟩
  have h1 := h.1
  rw [h1]
  norm_num [Dec.val]

/-! ### Locked accounts are frozen (C7) -/

/-- When some resolve precondition fails, `handle_resolve` is the identity
(resolve has the same preconditions as chargeback). -/
theorem handle_resolve_rejects (e : PaymentEngine) (r : InputTransaction)
    (hno : ¬ chargebackOk e r) : handle_resolve e r = e := by
  unfold handle_resolve
  cases htx : findMap r.tx_id e.transactions with
  | none => rfl
  | some st =>
    by_cases hcond : st.client_id ≠ r.client_id ∨
        st.dispute_status ≠ DisputeStatus.Disputed
    · simp [hcond]
    · push_neg at hcond
      cases hacct : findMap r.client_id e.accounts with
      | none => simp [hcond.1, hcond.2]
      | some acct =>
        by_cases hlock : (acct.locked : Prop)
        · simp [hcond.1, hcond.2, hlock]
        · exact absurd ⟨st, acct, htx, hcond.1, hcond.2, hacct, by simpa using hlock⟩ hno

/-- A deposit never touches the account of a different client. -/
theorem findMap_deposit_ne (e : PaymentEngine) (r : InputTransaction) {c : ClientId}
    (hc : c ≠ r.client_id) :
    findMap c (handle_deposit e r).accounts = findMap c e.accounts := by
  cases hamt : r.amount with
  | none =>
    unfold handle_deposit
    rw [hamt]
  | some amount =>
    rw [handle_deposit_eq e r amount hamt]
    split_ifs with h1 h2
    · rfl
    · exact findMap_getOrNew_ne hc _
    · rw [findMap_updMap_ne hc]
      exact findMap_getOrNew_ne hc _

/-- A withdrawal never touches the account of a different client. -/
theorem findMap_withdrawal_ne (e : PaymentEngine) (r : InputTransaction) {c : ClientId}
    (hc : c ≠ r.client_id) :
    findMap c (handle_withdrawal e r).accounts = findMap c e.accounts := by
  cases hamt : r.amount with
  | none =>
    unfold handle_withdrawal
    rw [hamt]
  | some amount =>
    rw [handle_withdrawal_eq e r amount hamt]
    split_ifs with h1 h2
    · rfl
    · exact findMap_getOrNew_ne hc _
    · rw [findMap_updMap_ne hc]
      exact findMap_getOrNew_ne hc _

/-- A dispute never touches the account of a different client. -/
theorem findMap_dispute_ne (e : PaymentEngine) (r : InputTransaction) {c : ClientId}
    (hc : c ≠ r.client_id) :
    findMap c (handle_dispute e r).accounts = findMap c e.accounts := by
  by_cases hok : disputeOk e r
  · obtain ⟨st, acct, htx, hcl, hacct, hlock, hstatus⟩ := hok
    rw [handle_dispute_applies e r st acct htx hcl hacct hlock hstatus]
    exact findMap_updMap_ne hc _ _
  · rw [handle_dispute_rejects e r hok]

/-- A resolve never touches the account of a different client. -/
theorem findMap_resolve_ne (e : PaymentEngine) (r : InputTransaction) {c : ClientId}
    (hc : c ≠ r.client_id) :
    findMap c (handle_resolve e r).accounts = findMap c e.accounts := by
  by_cases hok : chargebackOk e r
  · obtain ⟨st, acct, htx, hcl, hstat, hacct, hlock⟩ := hok
    rw [handle_resolve_applies e r st acct htx hcl hstat hacct hlock]
    exact findMap_updMap_ne hc _ _
  · rw [handle_resolve_rejects e r hok]

/-- A chargeback never touches the account of a different client. -/
theorem findMap_chargeback_ne (e : PaymentEngine) (r : InputTransaction) {c : ClientId}
    (hc : c ≠ r.client_id) :
    findMap c (handle_chargeback e r).accounts = findMap c e.accounts := by
  by_cases hok : chargebackOk e r
  · obtain ⟨st, acct, htx, hcl, hstat, hacct, hlock⟩ := hok
    rw [handle_chargeback_applies e r st acct htx hcl hstat hacct hlock]
    exact findMap_updMap_ne hc _ _
  · rw [handle_chargeback_rejects e r hok]

/-- No operation touches the account of a client other than the record's. -/
theorem findMap_processOne_ne (e : PaymentEngine) (r : InputTransaction) {c : ClientId}
    (hc : c ≠ r.client_id) :
    findMap c (processOne e r).accounts = findMap c e.accounts := by
  unfold processOne
  cases r.transaction_type
  · exact findMap_deposit_ne e r hc
  · exact findMap_withdrawal_ne e r hc
  · exact findMap_dispute_ne e r hc
  · exact findMap_resolve_ne e r hc
  · exact findMap_chargeback_ne e r hc

/-- An operation addressed to a client whose account is locked is a complete
no-op on the engine state. -/
theorem processOne_locked (e : PaymentEngine) (r : InputTransaction) (a : Account)
    (h : findMap r.client_id e.accounts = some a) (hl : a.locked = true) :
    processOne e r = e := by
  unfold processOne
  cases r.transaction_type
  case Deposit =>
    cases hamt : r.amount with
    | none =>
      unfold handle_deposit
      rw [hamt]
    | some amount =>
      rw [handle_deposit_eq e r amount hamt, getOrNew_found h]
      by_cases hsign : amount.isSignNegative
      · rw [if_pos hsign]
      · rw [if_neg hsign, if_pos (by simpa using hl)]
  case Withdrawal =>
    cases hamt : r.amount with
    | none =>
      unfold handle_withdrawal
      rw [hamt]
    | some amount =>
      rw [handle_withdrawal_eq e r amount hamt, getOrNew_found h]
      by_cases hsign : amount.isSignNegative
      · rw [if_pos hsign]
      · rw [if_neg hsign, if_pos (Or.inl (by simpa using hl))]
  case Dispute =>
    refine handle_dispute_rejects e r ?_
    rintro ⟨st, acct, htx, hcl, hacct, hlock, hstatus⟩
    rw [h] at hacct
    cases Option.some.inj hacct
    rw [hl] at hlock
    simp at hlock
  case Resolve =>
    refine handle_resolve_rejects e r ?_
    rintro ⟨st, acct, htx, hcl, hstat, hacct, hlock⟩
    rw [h] at hacct
    cases Option.some.inj hacct
    rw [hl] at hlock
    simp at hlock
  case Chargeback =>
    refine handle_chargeback_rejects e r ?_
    rintro ⟨st, acct, htx, hcl, hstat, hacct, hlock⟩
    rw [h] at hacct
    cases Option.some.inj hacct
    rw [hl] at hlock
    simp at hlock

/-- C7: once a client's account is locked, any further sequence of operations
(of any of the five kinds, addressed to any client) leaves that account —
its available, held and locked fields — unchanged forever. -/
theorem claim_C7_locked_frozen (l : List InputTransaction) :
    ∀ (e : PaymentEngine) (c : ClientId) (a : Account),
      findMap c e.accounts = some a → a.locked = true →
      findMap c (processAll e l).accounts = some a := by
  induction l with
  | nil => intro e c a h _; exact h
  | cons r rest ih =>
    intro e c a h hl
    have hstep : findMap c (processOne e r).accounts = some a := by
      by_cases hrc : r.client_id = c
      · rw [processOne_locked e r a (by rwa [hrc]) hl]
        exact h
      · rw [findMap_processOne_ne e r (fun hcc => hrc hcc.symm)]
        exact h
    exact ih (processOne e r) c a hstep hl

/-- Witness for C7: after deposit, dispute, chargeback, client 1 is locked
with zero balances; a further deposit, withdrawal, dispute, resolve and
chargeback addressed to client 1 all leave the account exactly as it was. -/
theorem claim_C7_locked_frozen_witness :
    findMap 1 (processAll
        (processAll engine0 [depTx 1 1 1000 1, dsTx 1 1, cbTx 1 1])
        [depTx 1 5 700 1, wdTx 1 6 300 1, dsTx 1 1, rsTx 1 1, cbTx 1 1]).accounts =
      some { id := 1, available := Dec.mk 0 1, held := Dec.mk 0 1, locked := true } := by
  exact claim_C7_locked_frozen
    [depTx 1 5 700 1, wdTx 1 6 300 1, dsTx 1 1, rsTx 1 1, cbTx 1 1]
    (processAll engine0 [depTx 1 1 1000 1, dsTx 1 1, cbTx 1 1]) 1
    { id := 1, available := Dec.mk 0 1, held := Dec.mk 0 1, locked := true }
    (by decide) rfl

/-! ### Rejected operations (C1) -/

/-- The deposit preconditions: a present, non-negative amount, and the
(looked-up or freshly created) account is not locked. -/
def depositOk (e : PaymentEngine) (r : InputTransaction) : Prop :=
  ∃ amount, r.amount = some amount ∧ ¬ amount.isSignNegative ∧
    (getOrNew r.client_id e.accounts).1.locked = false

/-- The withdrawal preconditions: a present, non-negative amount, the
(looked-up or freshly created) account is not locked, and
`available >= amount`. -/
def withdrawOk (e : PaymentEngine) (r : InputTransaction) : Prop :=
  ∃ amount, r.amount = some amount ∧ ¬ amount.isSignNegative ∧
    (getOrNew r.client_id e.accounts).1.locked = false ∧
    ¬ (getOrNew r.client_id e.accounts).1.available.blt amount

/-- A rejected deposit is a complete no-op. -/
theorem handle_deposit_rejects (e : PaymentEngine) (r : InputTransaction)
    (hno : ¬ depositOk e r) : handle_deposit e r = e := by
  cases hamt : r.amount with
  | none =>
    unfold handle_deposit
    rw [hamt]
  | some amount =>
    rw [handle_deposit_eq e r amount hamt]
    by_cases hsign : amount.isSignNegative
    · rw [if_pos hsign]
    · rw [if_neg hsign]
      cases hfind : findMap r.client_id e.accounts with
      | some a =>
        rw [getOrNew_found hfind]
        by_cases hlock : (a.locked : Prop)
        · rw [if_pos hlock]
        · exact absurd ⟨amount, hamt, hsign, by rw [getOrNew_found hfind]; simpa using hlock⟩ hno
      | none =>
        exact absurd ⟨amount, hamt, hsign, by rw [getOrNew_missing hfind]; rfl⟩ hno

/-- A rejected withdrawal is a no-op, except that when the client had no
account, the insufficient-funds path has already created a fresh empty
account for it. -/
theorem handle_withdrawal_rejects (e : PaymentEngine) (r : InputTransaction)
    (hno : ¬ withdrawOk e r) :
    handle_withdrawal e r = e ∨
      (findMap r.client_id e.accounts = none ∧
        handle_withdrawal e r =
          { e with accounts := (r.client_id, Account.new r.client_id) :: e.accounts }) := by
  cases hamt : r.amount with
  | none =>
    left
    unfold handle_withdrawal
    rw [hamt]
  | some amount =>
    rw [handle_withdrawal_eq e r amount hamt]
    by_cases hsign : amount.isSignNegative
    · left
      rw [if_pos hsign]
    · rw [if_neg hsign]
      cases hfind : findMap r.client_id e.accounts with
      | some a =>
        left
        rw [getOrNew_found hfind]
        by_cases hcond : (a.locked : Prop) ∨ a.available.blt amount
        · rw [if_pos hcond]
        · push_neg at hcond
          exact absurd ⟨amount, hamt, hsign, by
            rw [getOrNew_found hfind]
            exact ⟨by simpa using hcond.1, hcond.2⟩⟩ hno
      | none =>
        right
        refine ⟨rfl, ?_⟩
        rw [getOrNew_missing hfind]
        by_cases hcond : ((Account.new r.client_id).locked : Prop) ∨
            (Account.new r.client_id).available.blt amount
        · rw [if_pos hcond]
        · push_neg at hcond
          exact absurd ⟨amount, hamt, hsign, by
            rw [getOrNew_missing hfind]
            exact ⟨rfl, hcond.2⟩⟩ hno

/-- Counterexample to C1 as stated: a withdrawal of 5 from a fresh engine
fails its `available >= amount` precondition, yet it changes the engine
state — a new empty account for client 1 is created. -/
theorem claim_C1_counterexample :
    (getOrNew 1 engine0.accounts).1.available.blt (Dec.mk 5 0) ∧
    handle_withdrawal engine0 (wdTx 1 1 5 0) ≠ engine0 ∧
    findMap 1 (handle_withdrawal engine0 (wdTx 1 1 5 0)).accounts =
      some (Account.new 1) := by
  decide

/-- C1 (amended): a rejected deposit, dispute, resolve or chargeback leaves
the entire engine state unchanged; a rejected withdrawal likewise, except
that when the record's client had no account, the insufficient-funds path
has already created a fresh empty account (balances and stored transactions
are still untouched). -/
theorem claim_C1_rejected_noop (e : PaymentEngine) (r : InputTransaction) :
    (¬ depositOk e r → handle_deposit e r = e) ∧
    (¬ withdrawOk e r →
      (handle_withdrawal e r = e ∨
        (findMap r.client_id e.accounts = none ∧
          handle_withdrawal e r =
            { e with accounts :=
                (r.client_id, Account.new r.client_id) :: e.accounts }))) ∧
    (¬ disputeOk e r → handle_dispute e r = e) ∧
    (¬ chargebackOk e r → handle_resolve e r = e) ∧
    (¬ chargebackOk e r → handle_chargeback e r = e) :=
  ⟨handle_deposit_rejects e r, handle_withdrawal_rejects e r,
    handle_dispute_rejects e r, handle_resolve_rejects e r,
    handle_chargeback_rejects e r⟩

/-- Witness for C1 (amended): concrete rejected operations — a negative
deposit, a dispute of an unknown transaction, a resolve and a chargeback of
an undisputed transaction all change nothing; an insufficient-funds
withdrawal from an unknown client creates exactly the fresh empty account. -/
theorem claim_C1_rejected_noop_witness :
    handle_deposit engine0 (depTx 1 1 (-5) 0) = engine0 ∧
    handle_dispute engine0 (dsTx 1 1) = engine0 ∧
    handle_resolve (processAll engine0 [depTx 1 1 1000 1]) (rsTx 1 1) =
      processAll engine0 [depTx 1 1 1000 1] ∧
    handle_chargeback (processAll engine0 [depTx 1 1 1000 1]) (cbTx 1 1) =
      processAll engine0 [depTx 1 1 1000 1] ∧
    handle_withdrawal engine0 (wdTx 1 1 5 0) =
      { engine0 with accounts := [(1, Account.new 1)] } := by
  have h1 := (claim_C1_rejected_noop engine0 (depTx 1 1 (-5) 0)).1 (by
    rintro ⟨amount, hamt, hsign, _⟩
    cases Option.some.inj hamt
    exact hsign (by decide))
  have h2 := (claim_C1_rejected_noop engine0 (dsTx 1 1)).2.2.1 (by
    rintro ⟨st, acct, htx, _⟩
    exact Option.noConfusion htx)
  have h3 := (claim_C1_rejected_noop (processAll engine0 [depTx 1 1 1000 1])
    (rsTx 1 1)).2.2.2.1 (by
    rintro ⟨st, acct, htx, hcl, hstat, _⟩
    cases Option.some.inj htx
    exact absurd hstat (by decide))
  have h4 := (claim_C1_rejected_noop (processAll engine0 [depTx 1 1 1000 1])
    (cbTx 1 1)).2.2.2.2 (by
    rintro ⟨st, acct, htx, hcl, hstat, _⟩
    cases Option.some.inj htx
    exact absurd hstat (by decide))
  have h5 := (claim_C1_rejected_noop engine0 (wdTx 1 1 5 0)).2.1 (by
    rintro ⟨amount, hamt, hsign, hlock, hble⟩
    cases Option.some.inj hamt
    exact hble (by decide))
  refine ⟨h1, h2, h3, h4, ?_⟩
  rcases h5 with h | h
  · exact absurd h (by decide)
  · exact h.2

/-! ### Dispute-status transitions (C3) -/

/-- Counterexample to C3 as stated: overwriting a currently Disputed stored
transaction by a new deposit with the same transaction id resets its status
to NotDisputed — a Disputed → NotDisputed change, which the claim forbids. -/
theorem claim_C3_counterexample :
    statusOf (processAll engine0 [depTx 1 1 1000 1, dsTx 1 1]) 1 =
      some DisputeStatus.Disputed ∧
    statusOf (handle_deposit (processAll engine0 [depTx 1 1 1000 1, dsTx 1 1])
      (depTx 1 1 500 1)) 1 = some DisputeStatus.NotDisputed := by
  decide

/-- C3 (amended): every single operation changes a stored transaction's
status only along the edges NotDisputed→Disputed, Disputed→Resolved,
Disputed→ChargedBack, Resolved→Disputed — except that a deposit or
withdrawal for transaction id `t` may (re)set the stored status of `t` to
NotDisputed by creating or unconditionally overwriting the entry. -/
theorem claim_C3_status_transitions (e : PaymentEngine) (r : InputTransaction)
    (t : TransactionId) :
    statusOf (processOne e r) t = statusOf e t ∨
    (statusOf e t = some DisputeStatus.NotDisputed ∧
      statusOf (processOne e r) t = some DisputeStatus.Disputed) ∨
    (statusOf e t = some DisputeStatus.Disputed ∧
      statusOf (processOne e r) t = some DisputeStatus.Resolved) ∨
    (statusOf e t = some DisputeStatus.Disputed ∧
      statusOf (processOne e r) t = some DisputeStatus.ChargedBack) ∨
    (statusOf e t = some DisputeStatus.Resolved ∧
      statusOf (processOne e r) t = some DisputeStatus.Disputed) ∨
    ((r.transaction_type = TransactionType.Deposit ∨
        r.transaction_type = TransactionType.Withdrawal) ∧ t = r.tx_id ∧
      statusOf (processOne e r) t = some DisputeStatus.NotDisputed) := by
  unfold processOne
  cases htt : r.transaction_type
  case Deposit =>
    cases hamt : r.amount with
    | none =>
      left
      unfold handle_deposit
      rw [hamt]
    | some amount =>
      rw [handle_deposit_eq e r amount hamt]
      split_ifs with h1 h2
      · left
        rfl
      · left
        rfl
      · by_cases hteq : t = r.tx_id
        · refine Or.inr (Or.inr (Or.inr (Or.inr (Or.inr ⟨Or.inl rfl, hteq, ?_⟩))))
          unfold statusOf
          rw [hteq]
          dsimp only
          rw [findMap_insMap_self]
          rfl
        · left
          unfold statusOf
          dsimp only
          rw [findMap_insMap_ne hteq]
  case Withdrawal =>
    cases hamt : r.amount with
    | none =>
      left
      unfold handle_withdrawal
      rw [hamt]
    | some amount =>
      rw [handle_withdrawal_eq e r amount hamt]
      split_ifs with h1 h2
      · left
        rfl
      · left
        rfl
      · by_cases hteq : t = r.tx_id
        · refine Or.inr (Or.inr (Or.inr (Or.inr (Or.inr ⟨Or.inr rfl, hteq, ?_⟩))))
          unfold statusOf
          rw [hteq]
          dsimp only
          rw [findMap_insMap_self]
          rfl
        · left
          unfold statusOf
          dsimp only
          rw [findMap_insMap_ne hteq]
  case Dispute =>
    by_cases hok : disputeOk e r
    · obtain ⟨st, acct, htx, hcl, hacct, hlock, hstatus⟩ := hok
      rw [handle_dispute_applies e r st acct htx hcl hacct hlock hstatus]
      by_cases hteq : t = r.tx_id
      · subst hteq
        have hbefore : statusOf e r.tx_id = some st.dispute_status := by
          unfold statusOf
          rw [htx]
          rfl
        have hafter : statusOf
            ({ accounts := updMap r.client_id
                (fun a => { a with available := a.available.sub st.amount,
                                   held := a.held.add st.amount }) e.accounts,
               transactions := updMap r.tx_id
                (fun x => { x with dispute_status := DisputeStatus.Disputed })
                e.transactions } : PaymentEngine) r.tx_id = some DisputeStatus.Disputed := by
          unfold statusOf
          dsimp only
          rw [findMap_updMap_self, htx]
          rfl
        rcases hstatus with h | h
        · exact Or.inr (Or.inl ⟨by rw [hbefore, h], hafter⟩)
        · exact Or.inr (Or.inr (Or.inr (Or.inr (Or.inl ⟨by rw [hbefore, h], hafter⟩))))
      · left
        unfold statusOf
        dsimp only
        rw [findMap_updMap_ne hteq]
    · rw [handle_dispute_rejects e r hok]
      left
      rfl
  case Resolve =>
    by_cases hok : chargebackOk e r
    · obtain ⟨st, acct, htx, hcl, hstat, hacct, hlock⟩ := hok
      rw [handle_resolve_applies e r st acct htx hcl hstat hacct hlock]
      by_cases hteq : t = r.tx_id
      · subst hteq
        refine Or.inr (Or.inr (Or.inl ⟨?_, ?_⟩))
        · unfold statusOf
          rw [htx]
          simp [hstat]
        · unfold statusOf
          dsimp only
          rw [findMap_updMap_self, htx]
          rfl
      · left
        unfold statusOf
        dsimp only
        rw [findMap_updMap_ne hteq]
    · rw [handle_resolve_rejects e r hok]
      left
      rfl
  case Chargeback =>
    by_cases hok : chargebackOk e r
    · obtain ⟨st, acct, htx, hcl, hstat, hacct, hlock⟩ := hok
      rw [handle_chargeback_applies e r st acct htx hcl hstat hacct hlock]
      by_cases hteq : t = r.tx_id
      · subst hteq
        refine Or.inr (Or.inr (Or.inr (Or.inl ⟨?_, ?_⟩)))
        · unfold statusOf
          rw [htx]
          simp [hstat]
        · unfold statusOf
          dsimp only
          rw [findMap_updMap_self, htx]
          rfl
      · left
        unfold statusOf
        dsimp only
        rw [findMap_updMap_ne hteq]
    · rw [handle_chargeback_rejects e r hok]
      left
      rfl

/-! ### Export and decimal rendering (C9) -/

/-- `Decimal::normalize`: strip trailing zeros from the mantissa, reducing
the scale accordingly. -/
def decNormalizeAux : Int → Nat → Dec
  | m, 0 => ⟨m, 0⟩
  | m, s + 1 => if m % 10 = 0 then decNormalizeAux (m / 10) s else ⟨m, s + 1⟩

/-- `Decimal::normalize` on a decimal. -/
def Dec.normalize (d : Dec) : Dec := decNormalizeAux d.m d.s

/-- The fractional digits of `x` rendered with exactly `s` digits (leading
zeros included), most significant first. -/
def fracCharsN : Nat → Nat → List Char
  | _, 0 => []
  | x, s + 1 => fracCharsN (x / 10) s ++ [Nat.digitChar (x % 10)]

/-- The character string `Display` produces for a decimal: optional sign,
integer part, and — when the scale is positive — a dot followed by exactly
`scale` fractional digits. -/
def decChars (d : Dec) : List Char :=
  (if d.m < 0 then ['-'] else []) ++ Nat.toDigits 10 (d.m.natAbs / 10 ^ d.s) ++
    (if d.s = 0 then [] else '.' :: fracCharsN (d.m.natAbs % 10 ^ d.s) d.s)

/-- `serde_decimal::serialize`: normalize, then render with `{:.2}` when the
normalized scale is below 2 (i.e. pad with zeros to exactly two fractional
digits), otherwise with `to_string` at the natural scale. -/
def renderDec (d : Dec) : List Char :=
  if (Dec.normalize d).s < 2 then
    decChars ⟨(Dec.normalize d).m * 10 ^ (2 - (Dec.normalize d).s), 2⟩
  else decChars (Dec.normalize d)

/-- The number of fractional digits of a rendered string: the length of the
maximal digit run after the last dot. -/
def fracCount (l : List Char) : Nat :=
  (l.reverse.takeWhile (fun c => c != '.')).length

theorem fracCharsN_length (s : Nat) : ∀ x, (fracCharsN x s).length = s := by
  induction s with
  | zero => intro x; rfl
  | succ s ih =>
    intro x
    unfold fracCharsN
    rw [List.length_append, ih]
    simp

theorem digitChar_ne_dot (n : Nat) (h : n < 10) :
    (Nat.digitChar n != '.') = true := by
  interval_cases n <;> rfl

theorem fracCharsN_ne_dot (s : Nat) :
    ∀ x, ∀ c ∈ fracCharsN x s, (c != '.') = true := by
  induction s with
  | zero => intro x c hc; exact absurd hc (List.not_mem_nil c)
  | succ s ih =>
    intro x c hc
    unfold fracCharsN at hc
    rcases List.mem_append.mp hc with h | h
    · exact ih _ c h
    · rw [List.mem_singleton.mp h]
      exact digitChar_ne_dot _ (Nat.mod_lt _ (by norm_num))

theorem takeWhile_append_all {p : Char → Bool} {l1 l2 : List Char} {x : Char}
    (h1 : ∀ c ∈ l1, p c = true) (hx : p x = false) :
    (l1 ++ x :: l2).takeWhile p = l1 := by
  induction l1 with
  | nil => simp [List.takeWhile, hx]
  | cons a rest ih =>
    have ha : p a = true := h1 a (List.mem_cons_self a rest)
    simp only [List.cons_append, List.takeWhile_cons, ha, if_true]
    rw [ih (fun c hc => h1 c (List.mem_cons_of_mem a hc))]

theorem fracCount_append (a frac : List Char)
    (hfrac : ∀ c ∈ frac, (c != '.') = true) :
    fracCount (a ++ '.' :: frac) = frac.length := by
  unfold fracCount
  have hrev : (a ++ '.' :: frac).reverse = frac.reverse ++ '.' :: a.reverse := by
    rw [List.reverse_append, List.reverse_cons, List.append_assoc]
    simp
  rw [hrev, takeWhile_append_all (fun c hc => hfrac c (List.mem_reverse.mp hc))
    (by decide), List.length_reverse]

theorem fracCount_decChars (d : Dec) (hs : d.s ≠ 0) :
    fracCount (decChars d) = d.s := by
  unfold decChars
  rw [if_neg hs, fracCount_append _ _ (fracCharsN_ne_dot d.s _), fracCharsN_length]

/-- The rendered string always has `max 2 (normalized scale)` fractional
digits. -/
theorem fracCount_renderDec (d : Dec) :
    fracCount (renderDec d) = max 2 (Dec.normalize d).s := by
  unfold renderDec
  by_cases h : (Dec.normalize d).s < 2
  · rw [if_pos h, fracCount_decChars _ (by norm_num)]
    dsimp only
    omega
  · rw [if_neg h, fracCount_decChars _ (by omega)]
    omega

theorem decNormalizeAux_val (s : Nat) :
    ∀ m, (decNormalizeAux m s).val = Dec.val ⟨m, s⟩ := by
  induction s with
  | zero => intro m; rfl
  | succ s ih =>
    intro m
    unfold decNormalizeAux
    by_cases h : m % 10 = 0
    · rw [if_pos h, ih]
      have hm : ((m / 10 : Int) : Rat) * 10 = (m : Rat) := by
        exact_mod_cast Int.ediv_mul_cancel (Int.dvd_of_emod_eq_zero h)
      unfold Dec.val
      dsimp only
      field_simp
      linear_combination ((10 : Rat) ^ s) * hm
    · rw [if_neg h]

/-- Normalization preserves the denoted value. -/
theorem normalize_val (d : Dec) : (Dec.normalize d).val = d.val := by
  unfold Dec.normalize
  rw [decNormalizeAux_val]

theorem decNormalizeAux_stripped (s : Nat) :
    ∀ m, (decNormalizeAux m s).s ≠ 0 → (decNormalizeAux m s).m % 10 ≠ 0 := by
  induction s with
  | zero => intro m h; exact absurd rfl h
  | succ s ih =>
    intro m
    unfold decNormalizeAux
    by_cases h : m % 10 = 0
    · rw [if_pos h]
      exact ih _
    · rw [if_neg h]
      intro _
      exact h

/-- The normalized scale is natural: no trailing zero remains. -/
theorem normalize_stripped (d : Dec) :
    (Dec.normalize d).s ≠ 0 → (Dec.normalize d).m % 10 ≠ 0 := by
  unfold Dec.normalize
  exact decNormalizeAux_stripped d.s d.m

/-- An output row (`OutputAccount` in the source). -/
structure OutputAccount where
  id : ClientId
  available : Dec
  held : Dec
  total : Dec
  locked : Bool
deriving DecidableEq, Repr

/-- `OutputAccount::from(&Account)`. -/
def OutputAccount.ofAccount (a : Account) : OutputAccount :=
  ⟨a.id, a.available, a.held, a.total, a.locked⟩

/-- The `sort_by_key(|a| a.id)` ordering. -/
def accountLe (x y : Account) : Prop := x.id ≤ y.id

instance decAccountLe : DecidableRel accountLe := fun x y => by
  unfold accountLe; infer_instance

instance accountLeTotal : IsTotal Account accountLe :=
  ⟨fun a b => le_total a.id b.id⟩

instance accountLeTrans : IsTrans Account accountLe :=
  ⟨fun _ _ _ h1 h2 => le_trans h1 h2⟩

/-- `export_accounts`: sort the accounts by client id ascending and turn
each into an output row. -/
def export_accounts (accts : List Account) : List OutputAccount :=
  (accts.insertionSort accountLe).map OutputAccount.ofAccount

/-- C9: for account lists with distinct ids (as a `HashMap`'s values always
are), the export has exactly one row per known client, rows are in strictly
ascending client-id order, every row's total equals available + held, and
every decimal field is rendered at the value-preserving trailing-zero-
stripped natural scale, but never with fewer than 2 fractional digits. -/
theorem claim_C9_export (accts : List Account)
    (hnodup : (accts.map Account.id).Nodup) :
    ((export_accounts accts).map OutputAccount.id).Perm (accts.map Account.id) ∧
    List.Pairwise (fun x y => x.id < y.id) (export_accounts accts) ∧
    (∀ row ∈ export_accounts accts, row.total = row.available.add row.held) ∧
    (∀ d : Dec, fracCount (renderDec d) = max 2 (Dec.normalize d).s ∧
      (Dec.normalize d).val = d.val ∧
      ((Dec.normalize d).s ≠ 0 → (Dec.normalize d).m % 10 ≠ 0)) := by
  have hperm : (accts.insertionSort accountLe).Perm accts :=
    List.perm_insertionSort accountLe accts
  refine ⟨?_, ?_, ?_, fun d => ⟨fracCount_renderDec d, normalize_val d,
    normalize_stripped d⟩⟩
  · unfold export_accounts
    rw [List.map_map]
    exact hperm.map _
  · unfold export_accounts
    rw [List.pairwise_map]
    have hsorted : List.Pairwise accountLe (accts.insertionSort accountLe) :=
      List.sorted_insertionSort accountLe accts
    have hnd : ((accts.insertionSort accountLe).map Account.id).Nodup :=
      ((hperm.map Account.id).nodup_iff).mpr hnodup
    have hne : List.Pairwise (fun x y : Account => x.id ≠ y.id)
        (accts.insertionSort accountLe) := List.pairwise_map.mp hnd
    exact (hsorted.and hne).imp fun h => lt_of_le_of_ne h.1 h.2
  · intro row hrow
    unfold export_accounts at hrow
    obtain ⟨a, _, rfl⟩ := List.mem_map.mp hrow
    rfl

/-- Witness for C9: exporting accounts with ids 2 and 1 yields rows in
ascending id order with the right ids; an exact 100 renders as "100.00" and
100.2345 keeps all four fractional digits. -/
theorem claim_C9_export_witness :
    ((export_accounts
        [⟨2, Dec.mk 100 0, Dec.mk 0 0, false⟩,
         ⟨1, Dec.mk 1002345 4, Dec.mk 5 1, true⟩]).map OutputAccount.id).Perm
      [2, 1] ∧
    List.Pairwise (fun x y => x.id < y.id)
      (export_accounts
        [⟨2, Dec.mk 100 0, Dec.mk 0 0, false⟩,
         ⟨1, Dec.mk 1002345 4, Dec.mk 5 1, true⟩]) ∧
    renderDec (Dec.mk 100 0) = ['1', '0', '0', '.', '0', '0'] ∧
    renderDec (Dec.mk 1002345 4) = ['1', '0', '0', '.', '2', '3', '4', '5'] := by
  have h := claim_C9_export
    [⟨2, Dec.mk 100 0, Dec.mk 0 0, false⟩,
     ⟨1, Dec.mk 1002345 4, Dec.mk 5 1, true⟩] (by decide)
  exact ⟨h.1, h.2.1, by decide, by decide⟩

/-! ### Held balances are never negative (C10) -/

/-- The contribution of a stored transaction to a client's held balance:
its magnitude while it is Disputed for that client, zero otherwise. -/
def txContrib (c : ClientId) (st : StoredTransaction) : Rat :=
  if st.client_id = c ∧ st.dispute_status = DisputeStatus.Disputed
  then st.amount.val else 0

/-- The total magnitude currently under dispute for client `c`. -/
def heldSum (l : List (Nat × StoredTransaction)) (c : ClientId) : Rat :=
  (l.map (fun p => txContrib c p.2)).sum

theorem heldSum_cons (p : Nat × StoredTransaction)
    (l : List (Nat × StoredTransaction)) (c : ClientId) :
    heldSum (p :: l) c = txContrib c p.2 + heldSum l c := by
  simp [heldSum]

theorem txContrib_nonneg (c : ClientId) (st : StoredTransaction)
    (h : 0 ≤ st.amount.val) : 0 ≤ txContrib c st := by
  unfold txContrib
  split_ifs
  · exact h
  · exact le_refl 0

theorem heldSum_nonneg (l : List (Nat × StoredTransaction)) (c : ClientId)
    (h : ∀ p ∈ l, 0 ≤ p.2.amount.val) : 0 ≤ heldSum l c := by
  induction l with
  | nil => exact le_refl 0
  | cons p rest ih =>
    rw [heldSum_cons]
    have h1 := txContrib_nonneg c p.2 (h p (List.mem_cons_self p rest))
    have h2 := ih fun q hq => h q (List.mem_cons_of_mem p hq)
    linarith

theorem heldSum_eq_zero (l : List (Nat × StoredTransaction)) (c : ClientId)
    (h : ∀ p ∈ l, p.2.client_id ≠ c) : heldSum l c = 0 := by
  induction l with
  | nil => rfl
  | cons p rest ih =>
    rw [heldSum_cons, ih fun q hq => h q (List.mem_cons_of_mem p hq)]
    have hc := h p (List.mem_cons_self p rest)
    simp [txContrib, hc]

theorem findMap_eq_some_mem {α : Type} {k : Nat} {v : α} :
    ∀ {l : List (Nat × α)}, findMap k l = some v → (k, v) ∈ l := by
  intro l
  induction l with
  | nil => intro h; exact Option.noConfusion h
  | cons p rest ih =>
    intro h
    unfold findMap at h
    by_cases hp : p.1 = k
    · rw [if_pos hp] at h
      subst hp
      cases Option.some.inj h
      exact List.mem_cons_self p rest
    · rw [if_neg hp] at h
      exact List.mem_cons_of_mem p (ih h)

theorem mem_updMap {α : Type} {k : Nat} {f : α → α} :
    ∀ {l : List (Nat × α)} {q : Nat × α}, q ∈ updMap k f l →
      q ∈ l ∨ ∃ p, p ∈ l ∧ q = (p.1, f p.2) := by
  intro l
  induction l with
  | nil => intro q h; exact absurd h (List.not_mem_nil q)
  | cons p rest ih =>
    intro q h
    unfold updMap at h
    by_cases hp : p.1 = k
    · rw [if_pos hp] at h
      rcases List.mem_cons.mp h with h | h
      · exact Or.inr ⟨p, List.mem_cons_self p rest, h⟩
      · exact Or.inl (List.mem_cons_of_mem p h)
    · rw [if_neg hp] at h
      rcases List.mem_cons.mp h with h | h
      · exact Or.inl (h ▸ List.mem_cons_self p rest)
      · rcases ih h with h | ⟨p', hp', hq⟩
        · exact Or.inl (List.mem_cons_of_mem p h)
        · exact Or.inr ⟨p', List.mem_cons_of_mem p hp', hq⟩

theorem mem_insMap {α : Type} {k : Nat} {v : α} {l : List (Nat × α)}
    {q : Nat × α} (h : q ∈ insMap k v l) : q.2 = v ∨ q ∈ l := by
  unfold insMap at h
  by_cases hs : (findMap k l).isSome
  · rw [if_pos hs] at h
    rcases mem_updMap h with h | ⟨p, _, hq⟩
    · exact Or.inr h
    · left
      rw [hq]
  · rw [if_neg hs] at h
    rcases List.mem_cons.mp h with h | h
    · left
      rw [h]
    · exact Or.inr h

theorem isSome_findMap_updMap {α : Type} (k : Nat) (f : α → α)
    (m : List (Nat × α)) (c : Nat) :
    (findMap c (updMap k f m)).isSome = (findMap c m).isSome := by
  by_cases hc : c = k
  · subst hc
    rw [findMap_updMap_self]
    cases findMap c m <;> rfl
  · rw [findMap_updMap_ne hc]

theorem heldSum_updMap (k : Nat) (f : StoredTransaction → StoredTransaction)
    (c : ClientId) {old : StoredTransaction} :
    ∀ {l : List (Nat × StoredTransaction)}, findMap k l = some old →
      heldSum (updMap k f l) c =
        heldSum l c - txContrib c old + txContrib c (f old) := by
  intro l
  induction l with
  | nil => intro h; exact Option.noConfusion h
  | cons p rest ih =>
    intro h
    unfold findMap at h
    unfold updMap
    by_cases hp : p.1 = k
    · rw [if_pos hp] at h ⊢
      rw [heldSum_cons, heldSum_cons]
      rw [← Option.some.inj h]
      ring
    · rw [if_neg hp] at h ⊢
      rw [heldSum_cons, heldSum_cons, ih h]
      ring

theorem heldSum_insMap_ND (k : Nat) (v : StoredTransaction) (c : ClientId)
    (l : List (Nat × StoredTransaction))
    (hstat : v.dispute_status = DisputeStatus.NotDisputed)
    (hpos : ∀ p ∈ l, 0 ≤ p.2.amount.val) :
    heldSum (insMap k v l) c ≤ heldSum l c := by
  have hv : txContrib c v = 0 := by
    simp [txContrib, hstat]
  unfold insMap
  by_cases hs : (findMap k l).isSome
  · rw [if_pos hs]
    cases hfind : findMap k l with
    | none => rw [hfind] at hs; exact absurd hs (by simp)
    | some old =>
      rw [heldSum_updMap k _ c hfind, hv]
      have := txContrib_nonneg c old
        (hpos (k, old) (findMap_eq_some_mem hfind))
      linarith
  · rw [if_neg hs, heldSum_cons, hv]
    linarith

theorem findMap_cons_self {α : Type} (k : Nat) (v : α) (m : List (Nat × α)) :
    findMap k ((k, v) :: m) = some v := by
  simp [findMap]

theorem findMap_cons_ne {α : Type} {k c : Nat} (h : c ≠ k) (v : α)
    (m : List (Nat × α)) : findMap c ((k, v) :: m) = findMap c m := by
  simp [findMap, Ne.symm h]

theorem isSome_findMap_cons {α : Type} {x k : Nat} {v : α} {m : List (Nat × α)}
    (h : (findMap x m).isSome = true) :
    (findMap x ((k, v) :: m)).isSome = true := by
  by_cases hx : x = k
  · subst hx
    rw [findMap_cons_self]
    rfl
  · rw [findMap_cons_ne hx]
    exact h

/-- The inductive invariant behind C10: all stored magnitudes are
non-negative, every stored transaction's client has an account, and each
client's held balance is at least the total magnitude currently under
dispute for it. -/
structure GoodState (e : PaymentEngine) : Prop where
  amounts : ∀ p ∈ e.transactions, 0 ≤ p.2.amount.val
  clients : ∀ p ∈ e.transactions, (findMap p.2.client_id e.accounts).isSome = true
  heldBound : ∀ c a, findMap c e.accounts = some a →
    heldSum e.transactions c ≤ a.held.val

theorem heldSum_of_no_account (e : PaymentEngine) (hg : GoodState e) (c : ClientId)
    (hfind : findMap c e.accounts = none) : heldSum e.transactions c = 0 := by
  apply heldSum_eq_zero
  intro p hp hc
  have hs := hg.clients p hp
  rw [hc, hfind] at hs
  exact Bool.noConfusion hs

theorem good_deposit (e : PaymentEngine) (r : InputTransaction)
    (hg : GoodState e) : GoodState (handle_deposit e r) := by
  cases hamt : r.amount with
  | none =>
    unfold handle_deposit
    rw [hamt]
    exact hg
  | some amount =>
    rw [handle_deposit_eq e r amount hamt]
    by_cases hsign : amount.isSignNegative
    · rw [if_pos hsign]
      exact hg
    · rw [if_neg hsign]
      have hamtpos : 0 ≤ amount.val := (Dec.not_neg_iff amount).mp hsign
      cases hfind : findMap r.client_id e.accounts with
      | some acct =>
        rw [getOrNew_found hfind]
        by_cases hlock : (acct.locked : Prop)
        · rw [if_pos hlock]
          exact hg
        · rw [if_neg hlock]
          refine ⟨?_, ?_, ?_⟩
          · intro p hp
            rcases mem_insMap hp with h | h
            · rw [h]
              exact hamtpos
            · exact hg.amounts p h
          · intro p hp
            rw [isSome_findMap_updMap]
            rcases mem_insMap hp with h | h
            · rw [h]
              dsimp only
              rw [hfind]
              rfl
            · exact hg.clients p h
          · intro c' a' ha'
            have hle := heldSum_insMap_ND r.tx_id
              ⟨r.client_id, amount, DisputeStatus.NotDisputed⟩ c'
              e.transactions rfl hg.amounts
            by_cases hc : c' = r.client_id
            · subst hc
              rw [findMap_updMap_self, hfind] at ha'
              rw [← Option.some.inj ha']
              exact le_trans hle (hg.heldBound r.client_id acct hfind)
            · rw [findMap_updMap_ne hc] at ha'
              exact le_trans hle (hg.heldBound c' a' ha')
      | none =>
        rw [getOrNew_missing hfind]
        rw [if_neg (by simp [Account.new])]
        refine ⟨?_, ?_, ?_⟩
        · intro p hp
          rcases mem_insMap hp with h | h
          · rw [h]
            exact hamtpos
          · exact hg.amounts p h
        · intro p hp
          rw [isSome_findMap_updMap]
          rcases mem_insMap hp with h | h
          · rw [h]
            dsimp only
            rw [findMap_cons_self]
            rfl
          · exact isSome_findMap_cons (hg.clients p h)
        · intro c' a' ha'
          have hle := heldSum_insMap_ND r.tx_id
            ⟨r.client_id, amount, DisputeStatus.NotDisputed⟩ c'
            e.transactions rfl hg.amounts
          by_cases hc : c' = r.client_id
          · subst hc
            rw [findMap_updMap_self, findMap_cons_self] at ha'
            rw [← Option.some.inj ha']
            have h0 := heldSum_of_no_account e hg r.client_id hfind
            rw [h0] at hle
            simpa [Account.new, Dec.zero_val] using hle
          · rw [findMap_updMap_ne hc, findMap_cons_ne hc] at ha'
            exact le_trans hle (hg.heldBound c' a' ha')

theorem good_withdrawal (e : PaymentEngine) (r : InputTransaction)
    (hg : GoodState e) : GoodState (handle_withdrawal e r) := by
  cases hamt : r.amount with
  | none =>
    unfold handle_withdrawal
    rw [hamt]
    exact hg
  | some amount =>
    rw [handle_withdrawal_eq e r amount hamt]
    by_cases hsign : amount.isSignNegative
    · rw [if_pos hsign]
      exact hg
    · rw [if_neg hsign]
      have hamtpos : 0 ≤ amount.val := (Dec.not_neg_iff amount).mp hsign
      cases hfind : findMap r.client_id e.accounts with
      | some acct =>
        rw [getOrNew_found hfind]
        by_cases hcond : (acct.locked : Prop) ∨ acct.available.blt amount
        · rw [if_pos hcond]
          exact hg
        · rw [if_neg hcond]
          refine ⟨?_, ?_, ?_⟩
          · intro p hp
            rcases mem_insMap hp with h | h
            · rw [h]
              exact hamtpos
            · exact hg.amounts p h
          · intro p hp
            rw [isSome_findMap_updMap]
            rcases mem_insMap hp with h | h
            · rw [h]
              dsimp only
              rw [hfind]
              rfl
            · exact hg.clients p h
          · intro c' a' ha'
            have hle := heldSum_insMap_ND r.tx_id
              ⟨r.client_id, amount, DisputeStatus.NotDisputed⟩ c'
              e.transactions rfl hg.amounts
            by_cases hc : c' = r.client_id
            · subst hc
              rw [findMap_updMap_self, hfind] at ha'
              rw [← Option.some.inj ha']
              exact le_trans hle (hg.heldBound r.client_id acct hfind)
            · rw [findMap_updMap_ne hc] at ha'
              exact le_trans hle (hg.heldBound c' a' ha')
      | none =>
        rw [getOrNew_missing hfind]
        by_cases hcond : ((Account.new r.client_id).locked : Prop) ∨
            (Account.new r.client_id).available.blt amount
        · rw [if_pos hcond]
          refine ⟨hg.amounts, ?_, ?_⟩
          · intro p hp
            exact isSome_findMap_cons (hg.clients p hp)
          · intro c' a' ha'
            by_cases hc : c' = r.client_id
            · subst hc
              rw [findMap_cons_self] at ha'
              rw [← Option.some.inj ha']
              have h0 := heldSum_of_no_account e hg r.client_id hfind
              simp [Account.new, Dec.zero_val, h0]
            · rw [findMap_cons_ne hc] at ha'
              exact hg.heldBound c' a' ha'
        · rw [if_neg hcond]
          refine ⟨?_, ?_, ?_⟩
          · intro p hp
            rcases mem_insMap hp with h | h
            · rw [h]
              exact hamtpos
            · exact hg.amounts p h
          · intro p hp
            rw [isSome_findMap_updMap]
            rcases mem_insMap hp with h | h
            · rw [h]
              dsimp only
              rw [findMap_cons_self]
              rfl
            · exact isSome_findMap_cons (hg.clients p h)
          · intro c' a' ha'
            have hle := heldSum_insMap_ND r.tx_id
              ⟨r.client_id, amount, DisputeStatus.NotDisputed⟩ c'
              e.transactions rfl hg.amounts
            by_cases hc : c' = r.client_id
            · subst hc
              rw [findMap_updMap_self, findMap_cons_self] at ha'
              rw [← Option.some.inj ha']
              have h0 := heldSum_of_no_account e hg r.client_id hfind
              rw [h0] at hle
              simpa [Account.new, Dec.zero_val] using hle
            · rw [findMap_updMap_ne hc, findMap_cons_ne hc] at ha'
              exact le_trans hle (hg.heldBound c' a' ha')

theorem good_dispute (e : PaymentEngine) (r : InputTransaction)
    (hg : GoodState e) : GoodState (handle_dispute e r) := by
  by_cases hok : disputeOk e r
  · obtain ⟨st, acct, htx, hcl, hacct, hlock, hstatus⟩ := hok
    rw [handle_dispute_applies e r st acct htx hcl hacct hlock hstatus]
    have hzero : ∀ c', txContrib c' st = 0 := by
      intro c'
      rcases hstatus with h | h <;> simp [txContrib, h]
    refine ⟨?_, ?_, ?_⟩
    · intro p hp
      rcases mem_updMap hp with h | ⟨q, hq, hpe⟩
      · exact hg.amounts p h
      · rw [hpe]
        exact hg.amounts q hq
    · intro p hp
      rw [isSome_findMap_updMap]
      rcases mem_updMap hp with h | ⟨q, hq, hpe⟩
      · exact hg.clients p h
      · rw [hpe]
        exact hg.clients q hq
    · intro c' a' ha'
      have hsum := heldSum_updMap r.tx_id
        (fun t => { t with dispute_status := DisputeStatus.Disputed }) c' htx
      by_cases hc : c' = r.client_id
      · subst hc
        rw [findMap_updMap_self, hacct] at ha'
        rw [← Option.some.inj ha', hsum, hzero]
        have h2 : txContrib r.client_id
            { st with dispute_status := DisputeStatus.Disputed } =
            st.amount.val := by
          simp [txContrib, hcl]
        rw [h2]
        have hb := hg.heldBound r.client_id acct hacct
        change _ ≤ (acct.held.add st.amount).val
        rw [Dec.val_add]
        linarith
      · rw [findMap_updMap_ne hc] at ha'
        rw [hsum, hzero]
        have h2 : txContrib c'
            { st with dispute_status := DisputeStatus.Disputed } = 0 := by
          have : st.client_id ≠ c' := by
            rw [hcl]
            exact fun h => hc h.symm
          simp [txContrib, this]
        rw [h2]
        have hb := hg.heldBound c' a' ha'
        linarith
  · rw [handle_dispute_rejects e r hok]
    exact hg

theorem good_resolve (e : PaymentEngine) (r : InputTransaction)
    (hg : GoodState e) : GoodState (handle_resolve e r) := by
  by_cases hok : chargebackOk e r
  · obtain ⟨st, acct, htx, hcl, hstat, hacct, hlock⟩ := hok
    rw [handle_resolve_applies e r st acct htx hcl hstat hacct hlock]
    refine ⟨?_, ?_, ?_⟩
    · intro p hp
      rcases mem_updMap hp with h | ⟨q, hq, hpe⟩
      · exact hg.amounts p h
      · rw [hpe]
        exact hg.amounts q hq
    · intro p hp
      rw [isSome_findMap_updMap]
      rcases mem_updMap hp with h | ⟨q, hq, hpe⟩
      · exact hg.clients p h
      · rw [hpe]
        exact hg.clients q hq
    · intro c' a' ha'
      have hsum := heldSum_updMap r.tx_id
        (fun t => { t with dispute_status := DisputeStatus.Resolved }) c' htx
      have h2 : ∀ c'', txContrib c''
          { st with dispute_status := DisputeStatus.Resolved } = 0 := by
        intro c''
        simp [txContrib]
      by_cases hc : c' = r.client_id
      · subst hc
        rw [findMap_updMap_self, hacct] at ha'
        rw [← Option.some.inj ha', hsum, h2]
        have h1 : txContrib r.client_id st = st.amount.val := by
          simp [txContrib, hcl, hstat]
        rw [h1]
        have hb := hg.heldBound r.client_id acct hacct
        change _ ≤ (acct.held.sub st.amount).val
        rw [Dec.val_sub]
        linarith
      · rw [findMap_updMap_ne hc] at ha'
        rw [hsum, h2]
        have h1 : txContrib c' st = 0 := by
          have : st.client_id ≠ c' := by
            rw [hcl]
            exact fun h => hc h.symm
          simp [txContrib, this]
        rw [h1]
        have hb := hg.heldBound c' a' ha'
        linarith
  · rw [handle_resolve_rejects e r hok]
    exact hg

theorem good_chargeback (e : PaymentEngine) (r : InputTransaction)
    (hg : GoodState e) : GoodState (handle_chargeback e r) := by
  by_cases hok : chargebackOk e r
  · obtain ⟨st, acct, htx, hcl, hstat, hacct, hlock⟩ := hok
    rw [handle_chargeback_applies e r st acct htx hcl hstat hacct hlock]
    refine ⟨?_, ?_, ?_⟩
    · intro p hp
      rcases mem_updMap hp with h | ⟨q, hq, hpe⟩
      · exact hg.amounts p h
      · rw [hpe]
        exact hg.amounts q hq
    · intro p hp
      rw [isSome_findMap_updMap]
      rcases mem_updMap hp with h | ⟨q, hq, hpe⟩
      · exact hg.clients p h
      · rw [hpe]
        exact hg.clients q hq
    · intro c' a' ha'
      have hsum := heldSum_updMap r.tx_id
        (fun t => { t with dispute_status := DisputeStatus.ChargedBack }) c' htx
      have h2 : ∀ c'', txContrib c''
          { st with dispute_status := DisputeStatus.ChargedBack } = 0 := by
        intro c''
        simp [txContrib]
      by_cases hc : c' = r.client_id
      · subst hc
        rw [findMap_updMap_self, hacct] at ha'
        rw [← Option.some.inj ha', hsum, h2]
        have h1 : txContrib r.client_id st = st.amount.val := by
          simp [txContrib, hcl, hstat]
        rw [h1]
        have hb := hg.heldBound r.client_id acct hacct
        change _ ≤ (acct.held.sub st.amount).val
        rw [Dec.val_sub]
        linarith
      · rw [findMap_updMap_ne hc] at ha'
        rw [hsum, h2]
        have h1 : txContrib c' st = 0 := by
          have : st.client_id ≠ c' := by
            rw [hcl]
            exact fun h => hc h.symm
          simp [txContrib, this]
        rw [h1]
        have hb := hg.heldBound c' a' ha'
        linarith
  · rw [handle_chargeback_rejects e r hok]
    exact hg

theorem good_processOne (e : PaymentEngine) (r : InputTransaction)
    (hg : GoodState e) : GoodState (processOne e r) := by
  unfold processOne
  cases r.transaction_type
  · exact good_deposit e r hg
  · exact good_withdrawal e r hg
  · exact good_dispute e r hg
  · exact good_resolve e r hg
  · exact good_chargeback e r hg

theorem good_processAll (l : List InputTransaction) :
    ∀ e : PaymentEngine, GoodState e → GoodState (processAll e l) := by
  induction l with
  | nil => intro e hg; exact hg
  | cons r rest ih => intro e hg; exact ih (processOne e r) (good_processOne e r hg)

theorem good_engine0 : GoodState engine0 := by
  refine ⟨?_, ?_, ?_⟩
  · intro p hp
    exact absurd hp (List.not_mem_nil p)
  · intro p hp
    exact absurd hp (List.not_mem_nil p)
  · intro c a ha
    exact Option.noConfusion ha

/-- C10: in every engine state reachable from `PaymentEngine::new()` by any
sequence of the five operations, every account's held balance is
non-negative. -/
theorem claim_C10_held_nonneg (l : List InputTransaction) (c : ClientId)
    (a : Account) (h : findMap c (processAll engine0 l).accounts = some a) :
    0 ≤ a.held.val := by
  have hg : GoodState (processAll engine0 l) := good_processAll l engine0 good_engine0
  have h1 := hg.heldBound c a h
  have h2 := heldSum_nonneg (processAll engine0 l).transactions c hg.amounts
  linarith

/-- Witness for C10: after a deposit of 100.0 and a dispute, client 1's
held balance is 100.0, which is non-negative. -/
theorem claim_C10_held_nonneg_witness :
    findMap 1 (processAll engine0 [depTx 1 1 1000 1, dsTx 1 1]).accounts =
      some { id := 1, available := Dec.mk 0 1, held := Dec.mk 1000 1,
             locked := false } ∧
    0 ≤ (Dec.mk 1000 1).val := by
  refine ⟨by decide, ?_⟩
  exact claim_C10_held_nonneg [depTx 1 1 1000 1, dsTx 1 1] 1
    { id := 1, available := Dec.mk 0 1, held := Dec.mk 1000 1, locked := false }
    (by decide)

/-! ### Sharded processing equals sequential processing (C2)

`main.rs` partitions records by `client_id % num_senders` into lanes, each
lane runs its own `PaymentEngine` over its records in input order (batching
preserves the per-lane order), and the per-lane account maps are merged
with `HashMap::extend` after all lanes finish. -/

/-- The record is a deposit or a withdrawal (the operations that create or
overwrite stored transactions). -/
def DepWd (r : InputTransaction) : Prop :=
  r.transaction_type = TransactionType.Deposit ∨
    r.transaction_type = TransactionType.Withdrawal

/-- Two records agree on their owner when they are both deposit/withdrawal
records for the same transaction id. -/
def OkPair (r1 r2 : InputTransaction) : Prop :=
  DepWd r1 → DepWd r2 → r1.tx_id = r2.tx_id → r1.client_id = r2.client_id

/-- No transaction id is deposited/withdrawn by two different clients (the
spec's §3 well-formedness assumption: TransactionId unique per transaction). -/
def TxOwnerUnique (l : List InputTransaction) : Prop :=
  ∀ r1 ∈ l, ∀ r2 ∈ l, OkPair r1 r2

instance decDepWd (r : InputTransaction) : Decidable (DepWd r) := by
  unfold DepWd; infer_instance

instance decOkPair (r1 r2 : InputTransaction) : Decidable (OkPair r1 r2) := by
  unfold OkPair; infer_instance

instance decTxOwnerUnique (l : List InputTransaction) :
    Decidable (TxOwnerUnique l) := by
  unfold TxOwnerUnique; infer_instance

/-- The subsequence of records dispatched to lane `j` out of `N`
(`shard_index = client_id % num_senders` in `dispatch_transactions`). -/
def laneRecords (N j : Nat) (l : List InputTransaction) : List InputTransaction :=
  l.filter (fun r => r.client_id % N == j)

/-- The final state of lane `j`: an independent engine processing the
lane's records in order. -/
def laneState (N j : Nat) (l : List InputTransaction) : PaymentEngine :=
  processAll engine0 (laneRecords N j l)

/-- The merged account map: fold `extend` over the lanes' account maps
(later lanes overwrite earlier ones, though the lanes are client-disjoint),
observed through lookup. -/
def mergedAccounts (N : Nat) (l : List InputTransaction) (c : ClientId) :
    Option Account :=
  ((List.range N).map (fun j => laneState N j l)).foldl
    (fun acc e =>
      match findMap c e.accounts with
      | some a => some a
      | none => acc) none

/-- Counterexample to C2 as stated: with transaction id 5 deposited by both
client 1 and client 2, two-lane processing lets client 1's dispute of tx 5
succeed (its lane still stores tx 5 for client 1), while the single engine
rejects it (tx 5 was overwritten to client 2) — the merged and sequential
accounts for client 1 differ. -/
theorem claim_C2_counterexample :
    mergedAccounts 2 [depTx 1 5 10 0, depTx 2 5 20 0, dsTx 1 5] 1 ≠
      findMap 1
        (processAll engine0 [depTx 1 5 10 0, depTx 2 5 20 0, dsTx 1 5]).accounts := by
  decide

/-- The simulation relation between the sequential engine `S` and lane `j`'s
engine `L`: they agree on the accounts of lane-`j` clients, `L` knows no
other accounts, and `L`'s stored transactions are exactly `S`'s restricted
to lane-`j` clients. -/
def LaneRel (N j : Nat) (S L : PaymentEngine) : Prop :=
  (∀ c : ClientId, c % N = j → findMap c L.accounts = findMap c S.accounts) ∧
  (∀ c : ClientId, c % N ≠ j → findMap c L.accounts = none) ∧
  (∀ t : TransactionId, findMap t L.transactions =
    (findMap t S.transactions).bind
      (fun st => if st.client_id % N = j then some st else none))

/-- Every stored transaction's owner agrees with every upcoming
deposit/withdrawal of the same transaction id. -/
def Compat (S : PaymentEngine) (l : List InputTransaction) : Prop :=
  ∀ t st, findMap t S.transactions = some st →
    ∀ r ∈ l, DepWd r → r.tx_id = t → r.client_id = st.client_id

theorem laneRel_engine0 (N j : Nat) : LaneRel N j engine0 engine0 :=
  ⟨fun _ _ => rfl, fun _ _ => rfl, fun _ => rfl⟩

/-- Generic in-lane mutation step: both engines update the same client's
account and the same stored transaction with client-preserving functions. -/
theorem laneRel_mutate_in (N j : Nat) (S L : PaymentEngine) (c t : Nat)
    (fA : Account → Account) (fT : StoredTransaction → StoredTransaction)
    (hclient : ∀ st, (fT st).client_id = st.client_id)
    (hrel : LaneRel N j S L) (hj : c % N = j) :
    LaneRel N j
      ⟨updMap c fA S.accounts, updMap t fT S.transactions⟩
      ⟨updMap c fA L.accounts, updMap t fT L.transactions⟩ := by
  obtain ⟨h1, h2, h3⟩ := hrel
  refine ⟨?_, ?_, ?_⟩
  · intro c' hc
    by_cases hcc : c' = c
    · subst hcc
      rw [findMap_updMap_self, findMap_updMap_self, h1 c' hc]
    · rw [findMap_updMap_ne hcc, findMap_updMap_ne hcc]
      exact h1 c' hc
  · intro c' hc
    have hcc : c' ≠ c := fun h => hc (by rw [h]; exact hj)
    rw [findMap_updMap_ne hcc]
    exact h2 c' hc
  · intro t'
    by_cases ht : t' = t
    · subst ht
      rw [findMap_updMap_self, findMap_updMap_self, h3 t']
      cases findMap t' S.transactions with
      | none => rfl
      | some st =>
        simp only [Option.map_some', Option.some_bind]
        by_cases hs : st.client_id % N = j
        · rw [if_pos hs, if_pos (by rw [hclient st]; exact hs)]
          rfl
        · rw [if_neg hs, if_neg (by rw [hclient st]; exact hs)]
          rfl
    · rw [findMap_updMap_ne ht, findMap_updMap_ne ht]
      exact h3 t'

/-- Generic out-of-lane mutation step: the sequential engine updates a
client and a stored transaction belonging to another lane; lane `j`'s
engine is untouched. -/
theorem laneRel_mutate_out (N j : Nat) (S L : PaymentEngine) (c t : Nat)
    (fA : Account → Account) (fT : StoredTransaction → StoredTransaction)
    (hclient : ∀ st, (fT st).client_id = st.client_id)
    (hrel : LaneRel N j S L) (hj : c % N ≠ j)
    (howner : ∀ st, findMap t S.transactions = some st → st.client_id % N ≠ j) :
    LaneRel N j ⟨updMap c fA S.accounts, updMap t fT S.transactions⟩ L := by
  obtain ⟨h1, h2, h3⟩ := hrel
  refine ⟨?_, h2, ?_⟩
  · intro c' hc
    have hcc : c' ≠ c := fun h => hj (by rw [← h]; exact hc)
    rw [findMap_updMap_ne hcc]
    exact h1 c' hc
  · intro t'
    by_cases ht : t' = t
    · subst ht
      rw [findMap_updMap_self, h3 t']
      cases hfT : findMap t' S.transactions with
      | none => rfl
      | some st =>
        have hs := howner st hfT
        simp only [Option.map_some', Option.some_bind]
        rw [if_neg hs, if_neg (by rw [hclient st]; exact hs)]
    · rw [findMap_updMap_ne ht]
      exact h3 t'

/-- In-lane deposit: both engines perform the same step. -/
theorem laneRel_deposit_in (N j : Nat) (S L : PaymentEngine)
    (r : InputTransaction) (hrel : LaneRel N j S L) (hj : r.client_id % N = j) :
    LaneRel N j (handle_deposit S r) (handle_deposit L r) := by
  obtain ⟨h1, h2, h3⟩ := hrel
  cases hamt : r.amount with
  | none =>
    unfold handle_deposit
    rw [hamt]
    exact ⟨h1, h2, h3⟩
  | some amount =>
    rw [handle_deposit_eq S r amount hamt, handle_deposit_eq L r amount hamt]
    by_cases hsign : amount.isSignNegative
    · rw [if_pos hsign, if_pos hsign]
      exact ⟨h1, h2, h3⟩
    · rw [if_neg hsign, if_neg hsign]
      have hacc := h1 r.client_id hj
      cases hfS : findMap r.client_id S.accounts with
      | some acct =>
        have hfL : findMap r.client_id L.accounts = some acct := by
          rw [hacc, hfS]
        rw [getOrNew_found hfS, getOrNew_found hfL]
        by_cases hlock : (acct.locked : Prop)
        · rw [if_pos hlock, if_pos hlock]
          exact ⟨h1, h2, h3⟩
        · rw [if_neg hlock, if_neg hlock]
          refine ⟨?_, ?_, ?_⟩
          · intro c hc
            by_cases hcc : c = r.client_id
            · subst hcc
              rw [findMap_updMap_self, findMap_updMap_self, hfS, hfL]
            · rw [findMap_updMap_ne hcc, findMap_updMap_ne hcc]
              exact h1 c hc
          · intro c hc
            have hcc : c ≠ r.client_id := fun h => hc (by rw [h]; exact hj)
            rw [findMap_updMap_ne hcc]
            exact h2 c hc
          · intro t
            by_cases ht : t = r.tx_id
            · subst ht
              rw [findMap_insMap_self, findMap_insMap_self]
              simp [hj]
            · rw [findMap_insMap_ne ht, findMap_insMap_ne ht]
              exact h3 t
      | none =>
        have hfL : findMap r.client_id L.accounts = none := by
          rw [hacc, hfS]
        rw [getOrNew_missing hfS, getOrNew_missing hfL]
        rw [if_neg (by simp [Account.new]), if_neg (by simp [Account.new])]
        refine ⟨?_, ?_, ?_⟩
        · intro c hc
          by_cases hcc : c = r.client_id
          · subst hcc
            rw [findMap_updMap_self, findMap_updMap_self, findMap_cons_self,
              findMap_cons_self]
          · rw [findMap_updMap_ne hcc, findMap_updMap_ne hcc,
              findMap_cons_ne hcc, findMap_cons_ne hcc]
            exact h1 c hc
        · intro c hc
          have hcc : c ≠ r.client_id := fun h => hc (by rw [h]; exact hj)
          rw [findMap_updMap_ne hcc, findMap_cons_ne hcc]
          exact h2 c hc
        · intro t
          by_cases ht : t = r.tx_id
          · subst ht
            rw [findMap_insMap_self, findMap_insMap_self]
            simp [hj]
          · rw [findMap_insMap_ne ht, findMap_insMap_ne ht]
            exact h3 t

/-- In-lane withdrawal: both engines perform the same step. -/
theorem laneRel_withdrawal_in (N j : Nat) (S L : PaymentEngine)
    (r : InputTransaction) (hrel : LaneRel N j S L) (hj : r.client_id % N = j) :
    LaneRel N j (handle_withdrawal S r) (handle_withdrawal L r) := by
  obtain ⟨h1, h2, h3⟩ := hrel
  cases hamt : r.amount with
  | none =>
    unfold handle_withdrawal
    rw [hamt]
    exact ⟨h1, h2, h3⟩
  | some amount =>
    rw [handle_withdrawal_eq S r amount hamt, handle_withdrawal_eq L r amount hamt]
    by_cases hsign : amount.isSignNegative
    · rw [if_pos hsign, if_pos hsign]
      exact ⟨h1, h2, h3⟩
    · rw [if_neg hsign, if_neg hsign]
      have hacc := h1 r.client_id hj
      cases hfS : findMap r.client_id S.accounts with
      | some acct =>
        have hfL : findMap r.client_id L.accounts = some acct := by
          rw [hacc, hfS]
        rw [getOrNew_found hfS, getOrNew_found hfL]
        by_cases hcond : (acct.locked : Prop) ∨ acct.available.blt amount
        · rw [if_pos hcond, if_pos hcond]
          exact ⟨h1, h2, h3⟩
        · rw [if_neg hcond, if_neg hcond]
          refine ⟨?_, ?_, ?_⟩
          · intro c hc
            by_cases hcc : c = r.client_id
            · subst hcc
              rw [findMap_updMap_self, findMap_updMap_self, hfS, hfL]
            · rw [findMap_updMap_ne hcc, findMap_updMap_ne hcc]
              exact h1 c hc
          · intro c hc
            have hcc : c ≠ r.client_id := fun h => hc (by rw [h]; exact hj)
            rw [findMap_updMap_ne hcc]
            exact h2 c hc
          · intro t
            by_cases ht : t = r.tx_id
            · subst ht
              rw [findMap_insMap_self, findMap_insMap_self]
              simp [hj]
            · rw [findMap_insMap_ne ht, findMap_insMap_ne ht]
              exact h3 t
      | none =>
        have hfL : findMap r.client_id L.accounts = none := by
          rw [hacc, hfS]
        rw [getOrNew_missing hfS, getOrNew_missing hfL]
        by_cases hcond : ((Account.new r.client_id).locked : Prop) ∨
            (Account.new r.client_id).available.blt amount
        · rw [if_pos hcond, if_pos hcond]
          refine ⟨?_, ?_, h3⟩
          · intro c hc
            by_cases hcc : c = r.client_id
            · subst hcc
              rw [findMap_cons_self, findMap_cons_self]
            · rw [findMap_cons_ne hcc, findMap_cons_ne hcc]
              exact h1 c hc
          · intro c hc
            have hcc : c ≠ r.client_id := fun h => hc (by rw [h]; exact hj)
            rw [findMap_cons_ne hcc]
            exact h2 c hc
        · rw [if_neg hcond, if_neg hcond]
          refine ⟨?_, ?_, ?_⟩
          · intro c hc
            by_cases hcc : c = r.client_id
            · subst hcc
              rw [findMap_updMap_self, findMap_updMap_self, findMap_cons_self,
                findMap_cons_self]
            · rw [findMap_updMap_ne hcc, findMap_updMap_ne hcc,
                findMap_cons_ne hcc, findMap_cons_ne hcc]
              exact h1 c hc
          · intro c hc
            have hcc : c ≠ r.client_id := fun h => hc (by rw [h]; exact hj)
            rw [findMap_updMap_ne hcc, findMap_cons_ne hcc]
            exact h2 c hc
          · intro t
            by_cases ht : t = r.tx_id
            · subst ht
              rw [findMap_insMap_self, findMap_insMap_self]
              simp [hj]
            · rw [findMap_insMap_ne ht, findMap_insMap_ne ht]
              exact h3 t

/-- Out-of-lane deposit: lane `j` is untouched, and its restricted view of
the transactions is preserved because the overwritten transaction (if any)
belonged to the record's client. -/
theorem laneRel_deposit_out (N j : Nat) (S L : PaymentEngine)
    (r : InputTransaction) (hrel : LaneRel N j S L) (hj : r.client_id % N ≠ j)
    (hcompat : ∀ st, findMap r.tx_id S.transactions = some st →
      r.client_id = st.client_id) :
    LaneRel N j (handle_deposit S r) L := by
  obtain ⟨h1, h2, h3⟩ := hrel
  have hnone : findMap r.tx_id L.transactions = none := by
    rw [h3 r.tx_id]
    cases hfT : findMap r.tx_id S.transactions with
    | none => rfl
    | some st0 =>
      have hco := hcompat st0 hfT
      simp only [Option.some_bind]
      rw [if_neg (by rw [← hco]; exact hj)]
  cases hamt : r.amount with
  | none =>
    unfold handle_deposit
    rw [hamt]
    exact ⟨h1, h2, h3⟩
  | some amount =>
    rw [handle_deposit_eq S r amount hamt]
    by_cases hsign : amount.isSignNegative
    · rw [if_pos hsign]
      exact ⟨h1, h2, h3⟩
    · rw [if_neg hsign]
      cases hfS : findMap r.client_id S.accounts with
      | some acct =>
        rw [getOrNew_found hfS]
        by_cases hlock : (acct.locked : Prop)
        · rw [if_pos hlock]
          exact ⟨h1, h2, h3⟩
        · rw [if_neg hlock]
          refine ⟨?_, h2, ?_⟩
          · intro c hc
            have hcc : c ≠ r.client_id := fun h => hj (by rw [← h]; exact hc)
            rw [findMap_updMap_ne hcc]
            exact h1 c hc
          · intro t
            by_cases ht : t = r.tx_id
            · subst ht
              rw [findMap_insMap_self, hnone]
              simp [hj]
            · rw [findMap_insMap_ne ht]
              exact h3 t
      | none =>
        rw [getOrNew_missing hfS, if_neg (by simp [Account.new])]
        refine ⟨?_, h2, ?_⟩
        · intro c hc
          have hcc : c ≠ r.client_id := fun h => hj (by rw [← h]; exact hc)
          rw [findMap_updMap_ne hcc, findMap_cons_ne hcc]
          exact h1 c hc
        · intro t
          by_cases ht : t = r.tx_id
          · subst ht
            rw [findMap_insMap_self, hnone]
            simp [hj]
          · rw [findMap_insMap_ne ht]
            exact h3 t

/-- Out-of-lane withdrawal: like the deposit case. -/
theorem laneRel_withdrawal_out (N j : Nat) (S L : PaymentEngine)
    (r : InputTransaction) (hrel : LaneRel N j S L) (hj : r.client_id % N ≠ j)
    (hcompat : ∀ st, findMap r.tx_id S.transactions = some st →
      r.client_id = st.client_id) :
    LaneRel N j (handle_withdrawal S r) L := by
  obtain ⟨h1, h2, h3⟩ := hrel
  have hnone : findMap r.tx_id L.transactions = none := by
    rw [h3 r.tx_id]
    cases hfT : findMap r.tx_id S.transactions with
    | none => rfl
    | some st0 =>
      have hco := hcompat st0 hfT
      simp only [Option.some_bind]
      rw [if_neg (by rw [← hco]; exact hj)]
  cases hamt : r.amount with
  | none =>
    unfold handle_withdrawal
    rw [hamt]
    exact ⟨h1, h2, h3⟩
  | some amount =>
    rw [handle_withdrawal_eq S r amount hamt]
    by_cases hsign : amount.isSignNegative
    · rw [if_pos hsign]
      exact ⟨h1, h2, h3⟩
    · rw [if_neg hsign]
      cases hfS : findMap r.client_id S.accounts with
      | some acct =>
        rw [getOrNew_found hfS]
        by_cases hcond : (acct.locked : Prop) ∨ acct.available.blt amount
        · rw [if_pos hcond]
          exact ⟨h1, h2, h3⟩
        · rw [if_neg hcond]
          refine ⟨?_, h2, ?_⟩
          · intro c hc
            have hcc : c ≠ r.client_id := fun h => hj (by rw [← h]; exact hc)
            rw [findMap_updMap_ne hcc]
            exact h1 c hc
          · intro t
            by_cases ht : t = r.tx_id
            · subst ht
              rw [findMap_insMap_self, hnone]
              simp [hj]
            · rw [findMap_insMap_ne ht]
              exact h3 t
      | none =>
        rw [getOrNew_missing hfS]
        by_cases hcond : ((Account.new r.client_id).locked : Prop) ∨
            (Account.new r.client_id).available.blt amount
        · rw [if_pos hcond]
          refine ⟨?_, h2, h3⟩
          intro c hc
          have hcc : c ≠ r.client_id := fun h => hj (by rw [← h]; exact hc)
          rw [findMap_cons_ne hcc]
          exact h1 c hc
        · rw [if_neg hcond]
          refine ⟨?_, h2, ?_⟩
          · intro c hc
            have hcc : c ≠ r.client_id := fun h => hj (by rw [← h]; exact hc)
            rw [findMap_updMap_ne hcc, findMap_cons_ne hcc]
            exact h1 c hc
          · intro t
            by_cases ht : t = r.tx_id
            · subst ht
              rw [findMap_insMap_self, hnone]
              simp [hj]
            · rw [findMap_insMap_ne ht]
              exact h3 t

/-- Inversion: an entry of lane `j`'s transaction map is an entry of the
sequential map whose client is in lane `j`. -/
theorem lane_trans_inv {N j : Nat} {S L : PaymentEngine}
    (h3 : ∀ t, findMap t L.transactions = (findMap t S.transactions).bind
      (fun st => if st.client_id % N = j then some st else none))
    {t : TransactionId} {st : StoredTransaction}
    (h : findMap t L.transactions = some st) :
    findMap t S.transactions = some st ∧ st.client_id % N = j := by
  have hb := (h3 t).symm.trans h
  cases hfT : findMap t S.transactions with
  | none =>
    rw [hfT] at hb
    exact Option.noConfusion hb
  | some st0 =>
    rw [hfT] at hb
    simp only [Option.some_bind] at hb
    by_cases hs : st0.client_id % N = j
    · rw [if_pos hs] at hb
      have hst := Option.some.inj hb
      subst hst
      exact ⟨rfl, hs⟩
    · rw [if_neg hs] at hb
      exact Option.noConfusion hb

/-- In-lane dispute preconditions transfer from the lane engine to the
sequential engine. -/
theorem disputeOk_transfer (N j : Nat) {S L : PaymentEngine}
    {r : InputTransaction} (hrel : LaneRel N j S L) (hj : r.client_id % N = j)
    (hok : disputeOk L r) : disputeOk S r := by
  obtain ⟨st, acct, htx, hcl, hacct, hlock, hstatus⟩ := hok
  obtain ⟨htxS, _⟩ := lane_trans_inv hrel.2.2 htx
  refine ⟨st, acct, htxS, hcl, ?_, hlock, hstatus⟩
  rw [← hrel.1 r.client_id hj]
  exact hacct

/-- In-lane resolve/chargeback preconditions transfer likewise. -/
theorem chargebackOk_transfer (N j : Nat) {S L : PaymentEngine}
    {r : InputTransaction} (hrel : LaneRel N j S L) (hj : r.client_id % N = j)
    (hok : chargebackOk L r) : chargebackOk S r := by
  obtain ⟨st, acct, htx, hcl, hstat, hacct, hlock⟩ := hok
  obtain ⟨htxS, _⟩ := lane_trans_inv hrel.2.2 htx
  refine ⟨st, acct, htxS, hcl, hstat, ?_, hlock⟩
  rw [← hrel.1 r.client_id hj]
  exact hacct

/-- In-lane dispute: both engines perform the same step. -/
theorem laneRel_dispute_in (N j : Nat) (S L : PaymentEngine)
    (r : InputTransaction) (hrel : LaneRel N j S L) (hj : r.client_id % N = j) :
    LaneRel N j (handle_dispute S r) (handle_dispute L r) := by
  by_cases hok : disputeOk S r
  · obtain ⟨st, acct, htx, hcl, hacct, hlock, hstatus⟩ := hok
    have hstj : st.client_id % N = j := by rw [hcl]; exact hj
    have htxL : findMap r.tx_id L.transactions = some st := by
      rw [hrel.2.2 r.tx_id, htx]
      simp [hstj]
    have hacctL : findMap r.client_id L.accounts = some acct := by
      rw [hrel.1 r.client_id hj]
      exact hacct
    rw [handle_dispute_applies S r st acct htx hcl hacct hlock hstatus,
      handle_dispute_applies L r st acct htxL hcl hacctL hlock hstatus]
    exact laneRel_mutate_in N j S L r.client_id r.tx_id _ _ (fun _ => rfl) hrel hj
  · have hokL : ¬ disputeOk L r := fun h => hok (disputeOk_transfer N j hrel hj h)
    rw [handle_dispute_rejects S r hok, handle_dispute_rejects L r hokL]
    exact hrel

/-- Out-of-lane dispute: lane `j` is untouched. -/
theorem laneRel_dispute_out (N j : Nat) (S L : PaymentEngine)
    (r : InputTransaction) (hrel : LaneRel N j S L) (hj : r.client_id % N ≠ j) :
    LaneRel N j (handle_dispute S r) L := by
  by_cases hok : disputeOk S r
  · obtain ⟨st, acct, htx, hcl, hacct, hlock, hstatus⟩ := hok
    rw [handle_dispute_applies S r st acct htx hcl hacct hlock hstatus]
    refine laneRel_mutate_out N j S L r.client_id r.tx_id _ _ (fun _ => rfl)
      hrel hj ?_
    intro st0 hst0
    rw [Option.some.inj (hst0.symm.trans htx), hcl]
    exact hj
  · rw [handle_dispute_rejects S r hok]
    exact hrel

/-- In-lane resolve: both engines perform the same step. -/
theorem laneRel_resolve_in (N j : Nat) (S L : PaymentEngine)
    (r : InputTransaction) (hrel : LaneRel N j S L) (hj : r.client_id % N = j) :
    LaneRel N j (handle_resolve S r) (handle_resolve L r) := by
  by_cases hok : chargebackOk S r
  · obtain ⟨st, acct, htx, hcl, hstat, hacct, hlock⟩ := hok
    have hstj : st.client_id % N = j := by rw [hcl]; exact hj
    have htxL : findMap r.tx_id L.transactions = some st := by
      rw [hrel.2.2 r.tx_id, htx]
      simp [hstj]
    have hacctL : findMap r.client_id L.accounts = some acct := by
      rw [hrel.1 r.client_id hj]
      exact hacct
    rw [handle_resolve_applies S r st acct htx hcl hstat hacct hlock,
      handle_resolve_applies L r st acct htxL hcl hstat hacctL hlock]
    exact laneRel_mutate_in N j S L r.client_id r.tx_id _ _ (fun _ => rfl) hrel hj
  · have hokL : ¬ chargebackOk L r := fun h => hok (chargebackOk_transfer N j hrel hj h)
    rw [handle_resolve_rejects S r hok, handle_resolve_rejects L r hokL]
    exact hrel

/-- Out-of-lane resolve: lane `j` is untouched. -/
theorem laneRel_resolve_out (N j : Nat) (S L : PaymentEngine)
    (r : InputTransaction) (hrel : LaneRel N j S L) (hj : r.client_id % N ≠ j) :
    LaneRel N j (handle_resolve S r) L := by
  by_cases hok : chargebackOk S r
  · obtain ⟨st, acct, htx, hcl, hstat, hacct, hlock⟩ := hok
    rw [handle_resolve_applies S r st acct htx hcl hstat hacct hlock]
    refine laneRel_mutate_out N j S L r.client_id r.tx_id _ _ (fun _ => rfl)
      hrel hj ?_
    intro st0 hst0
    rw [Option.some.inj (hst0.symm.trans htx), hcl]
    exact hj
  · rw [handle_resolve_rejects S r hok]
    exact hrel

/-- In-lane chargeback: both engines perform the same step. -/
theorem laneRel_chargeback_in (N j : Nat) (S L : PaymentEngine)
    (r : InputTransaction) (hrel : LaneRel N j S L) (hj : r.client_id % N = j) :
    LaneRel N j (handle_chargeback S r) (handle_chargeback L r) := by
  by_cases hok : chargebackOk S r
  · obtain ⟨st, acct, htx, hcl, hstat, hacct, hlock⟩ := hok
    have hstj : st.client_id % N = j := by rw [hcl]; exact hj
    have htxL : findMap r.tx_id L.transactions = some st := by
      rw [hrel.2.2 r.tx_id, htx]
      simp [hstj]
    have hacctL : findMap r.client_id L.accounts = some acct := by
      rw [hrel.1 r.client_id hj]
      exact hacct
    rw [handle_chargeback_applies S r st acct htx hcl hstat hacct hlock,
      handle_chargeback_applies L r st acct htxL hcl hstat hacctL hlock]
    exact laneRel_mutate_in N j S L r.client_id r.tx_id _ _ (fun _ => rfl) hrel hj
  · have hokL : ¬ chargebackOk L r := fun h => hok (chargebackOk_transfer N j hrel hj h)
    rw [handle_chargeback_rejects S r hok, handle_chargeback_rejects L r hokL]
    exact hrel

/-- Out-of-lane chargeback: lane `j` is untouched. -/
theorem laneRel_chargeback_out (N j : Nat) (S L : PaymentEngine)
    (r : InputTransaction) (hrel : LaneRel N j S L) (hj : r.client_id % N ≠ j) :
    LaneRel N j (handle_chargeback S r) L := by
  by_cases hok : chargebackOk S r
  · obtain ⟨st, acct, htx, hcl, hstat, hacct, hlock⟩ := hok
    rw [handle_chargeback_applies S r st acct htx hcl hstat hacct hlock]
    refine laneRel_mutate_out N j S L r.client_id r.tx_id _ _ (fun _ => rfl)
      hrel hj ?_
    intro st0 hst0
    rw [Option.some.inj (hst0.symm.trans htx), hcl]
    exact hj
  · rw [handle_chargeback_rejects S r hok]
    exact hrel

/-- One record: the sequential engine steps; the lane engine steps exactly
when the record is routed to it. -/
theorem laneRel_processOne (N j : Nat) (S L : PaymentEngine)
    (r : InputTransaction) (hrel : LaneRel N j S L)
    (hcompat : ∀ st, DepWd r → findMap r.tx_id S.transactions = some st →
      r.client_id = st.client_id) :
    LaneRel N j (processOne S r)
      (if r.client_id % N = j then processOne L r else L) := by
  by_cases hj : r.client_id % N = j
  · rw [if_pos hj]
    unfold processOne
    cases r.transaction_type
    · exact laneRel_deposit_in N j S L r hrel hj
    · exact laneRel_withdrawal_in N j S L r hrel hj
    · exact laneRel_dispute_in N j S L r hrel hj
    · exact laneRel_resolve_in N j S L r hrel hj
    · exact laneRel_chargeback_in N j S L r hrel hj
  · rw [if_neg hj]
    unfold processOne
    cases htt : r.transaction_type
    · exact laneRel_deposit_out N j S L r hrel hj
        (fun st h => hcompat st (Or.inl htt) h)
    · exact laneRel_withdrawal_out N j S L r hrel hj
        (fun st h => hcompat st (Or.inr htt) h)
    · exact laneRel_dispute_out N j S L r hrel hj
    · exact laneRel_resolve_out N j S L r hrel hj
    · exact laneRel_chargeback_out N j S L r hrel hj

/-- A stored transaction after one step either existed before with the same
client, or was just written by this deposit/withdrawal record. -/
theorem trans_client_processOne (S : PaymentEngine) (r : InputTransaction)
    {t : TransactionId} {st : StoredTransaction}
    (h : findMap t (processOne S r).transactions = some st) :
    (∃ st0, findMap t S.transactions = some st0 ∧
      st0.client_id = st.client_id) ∨
    (DepWd r ∧ t = r.tx_id ∧ st.client_id = r.client_id) := by
  unfold processOne at h
  cases htt : r.transaction_type
  all_goals rw [htt] at h
  case Deposit =>
    cases hamt : r.amount with
    | none =>
      unfold handle_deposit at h
      rw [hamt] at h
      exact Or.inl ⟨st, h, rfl⟩
    | some amount =>
      rw [handle_deposit_eq S r amount hamt] at h
      split_ifs at h with h1 h2
      · exact Or.inl ⟨st, h, rfl⟩
      · exact Or.inl ⟨st, h, rfl⟩
      · by_cases ht : t = r.tx_id
        · subst ht
          rw [findMap_insMap_self] at h
          have hv := Option.some.inj h
          refine Or.inr ⟨Or.inl htt, rfl, ?_⟩
          rw [← hv]
        · rw [findMap_insMap_ne ht] at h
          exact Or.inl ⟨st, h, rfl⟩
  case Withdrawal =>
    cases hamt : r.amount with
    | none =>
      unfold handle_withdrawal at h
      rw [hamt] at h
      exact Or.inl ⟨st, h, rfl⟩
    | some amount =>
      rw [handle_withdrawal_eq S r amount hamt] at h
      split_ifs at h with h1 h2
      · exact Or.inl ⟨st, h, rfl⟩
      · exact Or.inl ⟨st, h, rfl⟩
      · by_cases ht : t = r.tx_id
        · subst ht
          rw [findMap_insMap_self] at h
          have hv := Option.some.inj h
          refine Or.inr ⟨Or.inr htt, rfl, ?_⟩
          rw [← hv]
        · rw [findMap_insMap_ne ht] at h
          exact Or.inl ⟨st, h, rfl⟩
  case Dispute =>
    by_cases hok : disputeOk S r
    · obtain ⟨st0, acct, htx, hcl, hacct, hlock, hstatus⟩ := hok
      rw [handle_dispute_applies S r st0 acct htx hcl hacct hlock hstatus] at h
      by_cases ht : t = r.tx_id
      · subst ht
        rw [findMap_updMap_self, htx] at h
        simp only [Option.map_some'] at h
        have hv := Option.some.inj h
        exact Or.inl ⟨st0, htx, by rw [← hv]⟩
      · rw [findMap_updMap_ne ht] at h
        exact Or.inl ⟨st, h, rfl⟩
    · rw [handle_dispute_rejects S r hok] at h
      exact Or.inl ⟨st, h, rfl⟩
  case Resolve =>
    by_cases hok : chargebackOk S r
    · obtain ⟨st0, acct, htx, hcl, hstat, hacct, hlock⟩ := hok
      rw [handle_resolve_applies S r st0 acct htx hcl hstat hacct hlock] at h
      by_cases ht : t = r.tx_id
      · subst ht
        rw [findMap_updMap_self, htx] at h
        simp only [Option.map_some'] at h
        have hv := Option.some.inj h
        exact Or.inl ⟨st0, htx, by rw [← hv]⟩
      · rw [findMap_updMap_ne ht] at h
        exact Or.inl ⟨st, h, rfl⟩
    · rw [handle_resolve_rejects S r hok] at h
      exact Or.inl ⟨st, h, rfl⟩
  case Chargeback =>
    by_cases hok : chargebackOk S r
    · obtain ⟨st0, acct, htx, hcl, hstat, hacct, hlock⟩ := hok
      rw [handle_chargeback_applies S r st0 acct htx hcl hstat hacct hlock] at h
      by_cases ht : t = r.tx_id
      · subst ht
        rw [findMap_updMap_self, htx] at h
        simp only [Option.map_some'] at h
        have hv := Option.some.inj h
        exact Or.inl ⟨st0, htx, by rw [← hv]⟩
      · rw [findMap_updMap_ne ht] at h
        exact Or.inl ⟨st, h, rfl⟩
    · rw [handle_chargeback_rejects S r hok] at h
      exact Or.inl ⟨st, h, rfl⟩

/-- Compatibility survives one step. -/
theorem compat_step (S : PaymentEngine) (r : InputTransaction)
    (rest : List InputTransaction) (hcompat : Compat S (r :: rest))
    (hpair : ∀ r2 ∈ rest, OkPair r r2) : Compat (processOne S r) rest := by
  intro t st hfind r2 hr2 hdw2 htx2
  rcases trans_client_processOne S r hfind with ⟨st0, hst0, hcl0⟩ | ⟨hdw, ht, hcl⟩
  · rw [← hcl0]
    exact hcompat t st0 hst0 r2 (List.mem_cons_of_mem r hr2) hdw2 htx2
  · rw [hcl]
    exact (hpair r2 hr2 hdw hdw2 (ht.symm.trans htx2.symm)).symm

/-- The well-formedness assumption in pairwise form. -/
theorem txOwnerUnique_pairwise : ∀ {l : List InputTransaction},
    TxOwnerUnique l → List.Pairwise OkPair l := by
  intro l
  induction l with
  | nil => intro _; exact List.Pairwise.nil
  | cons r rest ih =>
    intro h
    refine List.Pairwise.cons ?_ (ih ?_)
    · intro r2 hr2
      exact h r (List.mem_cons_self r rest) r2 (List.mem_cons_of_mem r hr2)
    · intro r1 hr1 r2 hr2
      exact h r1 (List.mem_cons_of_mem r hr1) r2 (List.mem_cons_of_mem r hr2)

/-- The simulation, extended over a whole record list. -/
theorem laneRel_processAll (N j : Nat) :
    ∀ (l : List InputTransaction) (S L : PaymentEngine),
      LaneRel N j S L → Compat S l → List.Pairwise OkPair l →
      LaneRel N j (processAll S l) (processAll L (laneRecords N j l)) := by
  intro l
  induction l with
  | nil =>
    intro S L hrel _ _
    exact hrel
  | cons r rest ih =>
    intro S L hrel hcompat hpair
    obtain ⟨hpairhead, hpairtail⟩ := List.pairwise_cons.mp hpair
    have hcompat1 : ∀ st, DepWd r →
        findMap r.tx_id S.transactions = some st →
        r.client_id = st.client_id :=
      fun st hdw hf => hcompat r.tx_id st hf r (List.mem_cons_self r rest) hdw rfl
    have hstep := laneRel_processOne N j S L r hrel hcompat1
    have hcompat2 := compat_step S r rest hcompat hpairhead
    unfold laneRecords
    rw [List.filter_cons]
    by_cases hj : r.client_id % N = j
    · rw [if_pos (by simpa using hj)]
      rw [if_pos hj] at hstep
      exact ih (processOne S r) (processOne L r) hstep hcompat2 hpairtail
    · rw [if_neg (by simpa using hj)]
      rw [if_neg hj] at hstep
      exact ih (processOne S r) L hstep hcompat2 hpairtail

theorem fold_merge_none (c : ClientId) :
    ∀ (lanes : List PaymentEngine) (acc : Option Account),
      (∀ e ∈ lanes, findMap c e.accounts = none) →
      lanes.foldl (fun acc e =>
        match findMap c e.accounts with
        | some a => some a
        | none => acc) acc = acc := by
  intro lanes
  induction lanes with
  | nil => intro acc _; rfl
  | cons e rest ih =>
    intro acc h
    rw [List.foldl_cons, h e (List.mem_cons_self e rest)]
    exact ih acc fun e2 he2 => h e2 (List.mem_cons_of_mem e he2)

theorem fold_merge_eval (c : ClientId) (lkp : Nat → PaymentEngine) (owner : Nat) :
    ∀ js : List Nat, owner ∈ js → js.Nodup →
      (∀ j ∈ js, j ≠ owner → findMap c (lkp j).accounts = none) →
      (js.map lkp).foldl (fun acc e =>
        match findMap c e.accounts with
        | some a => some a
        | none => acc) none = findMap c (lkp owner).accounts := by
  intro js
  induction js with
  | nil => intro h; exact absurd h (List.not_mem_nil owner)
  | cons j rest ih =>
    intro hmem hnodup hnone
    rw [List.map_cons, List.foldl_cons]
    by_cases hj : j = owner
    · subst hj
      have hnotin : j ∉ rest := (List.nodup_cons.mp hnodup).1
      have hrestnone : ∀ e ∈ rest.map lkp, findMap c e.accounts = none := by
        intro e he
        obtain ⟨j2, hj2, he2⟩ := List.mem_map.mp he
        rw [← he2]
        exact hnone j2 (List.mem_cons_of_mem j hj2)
          (fun h => hnotin (h ▸ hj2))
      rw [fold_merge_none c (rest.map lkp) _ hrestnone]
      cases hf : findMap c (lkp j).accounts <;> rfl
    · have howner : owner ∈ rest := by
        rcases List.mem_cons.mp hmem with h | h
        · exact absurd h.symm hj
        · exact h
      rw [hnone j (List.mem_cons_self j rest) hj]
      exact ih howner (List.nodup_cons.mp hnodup).2
        fun j2 hj2 h2 => hnone j2 (List.mem_cons_of_mem j hj2) h2

/-- Counterexample aside (see `claim_C2_counterexample`), the determinism
property holds on well-formed inputs.

C2 (amended): provided no transaction id is deposited/withdrawn by two
different clients (the spec's §3 uniqueness assumption on TransactionId),
partitioning the records by `client_id % N` into `N` lanes, processing each
lane in order with an independent engine, and merging the per-lane account
maps yields, for every client, exactly the single sequential engine's
account — independent of the lane count `N`. -/
theorem claim_C2_sharding (N : Nat) (hN : 0 < N) (l : List InputTransaction)
    (huniq : TxOwnerUnique l) (c : ClientId) :
    mergedAccounts N l c = findMap c (processAll engine0 l).accounts := by
  have hpair := txOwnerUnique_pairwise huniq
  have hcompat0 : Compat engine0 l := fun t st h => Option.noConfusion h
  have hrel : ∀ j, LaneRel N j (processAll engine0 l) (laneState N j l) :=
    fun j => laneRel_processAll N j l engine0 engine0 (laneRel_engine0 N j)
      hcompat0 hpair
  have hnone : ∀ j ∈ List.range N, j ≠ c % N →
      findMap c (laneState N j l).accounts = none := by
    intro j _ hne
    exact (hrel j).2.1 c (fun h => hne h.symm)
  have heval := fold_merge_eval c (fun j => laneState N j l) (c % N)
    (List.range N) (List.mem_range.mpr (Nat.mod_lt c hN)) (List.nodup_range N)
    hnone
  unfold mergedAccounts
  rw [heval]
  exact (hrel (c % N)).1 c rfl

/-- Witness for C2 (amended): a three-record input with distinct transaction
ids, processed with two lanes, merges to exactly the sequential result for
both clients; concretely both give client 1 a disputed 100.0 deposit. -/
theorem claim_C2_sharding_witness :
    mergedAccounts 2 [depTx 1 1 1000 1, depTx 2 7 500 1, dsTx 1 1] 1 =
      findMap 1
        (processAll engine0 [depTx 1 1 1000 1, depTx 2 7 500 1, dsTx 1 1]).accounts ∧
    mergedAccounts 2 [depTx 1 1 1000 1, depTx 2 7 500 1, dsTx 1 1] 2 =
      findMap 2
        (processAll engine0 [depTx 1 1 1000 1, depTx 2 7 500 1, dsTx 1 1]).accounts ∧
    findMap 1
        (processAll engine0 [depTx 1 1 1000 1, depTx 2 7 500 1, dsTx 1 1]).accounts =
      some { id := 1, available := Dec.mk 0 1, held := Dec.mk 1000 1,
             locked := false } := by
  refine ⟨?_, ?_, by decide⟩
  · exact claim_C2_sharding 2 (by decide)
      [depTx 1 1 1000 1, depTx 2 7 500 1, dsTx 1 1] (by decide) 1
  · exact claim_C2_sharding 2 (by decide)
      [depTx 1 1 1000 1, depTx 2 7 500 1, dsTx 1 1] (by decide) 2

end RsAccountant
